import Mathlib

/-!
Verification development for the `ventas-check` repository.

The repository consists of two near-duplicate pandas scripts,
`src/calc_pedido.py` and `src/downloads/calc_pedido.py`, that normalize
product names, deduplicate a price catalog under a selectable policy,
join an order table against the resolved catalog and compute derived
financial fields.

Shallow embedding conventions:
* numbers are `ℚ` (the scripts do plain numeric arithmetic on floats;
  all facts proved here concern exact arithmetic identities);
* a pandas missing value (`NaN` / `pd.NA`) in a numeric column is
  `none : Option ℚ`, and a missing product name is `none : Option String`;
* a raised Python exception is an `Except.error`;
* pandas library operations used by the scripts (`nunique`, `idxmax`,
  `mean`, `unique`, `drop_duplicates`, `groupby` key ordering, `merge`
  column suffixing) are modelled once, on lists, and shared by the
  embeddings of the two files.

The namespace `CalcPedido` embeds `src/calc_pedido.py` and the namespace
`Downloads` embeds `src/downloads/calc_pedido.py`.
-/

/-- One raw catalog row: columns `producto`, `precio compra`, `precio venta`
of the sheet read in the scripts.  `none` models a pandas missing value.
The data model of the scripts has numeric (or missing) price cells. -/
structure CatRow where
  producto : Option String
  precioCompra : Option ℚ
  precioVenta : Option ℚ
deriving DecidableEq

/-- One raw order row: columns `producto`, `cantidad`, `descuento_%`. -/
structure PedRow where
  producto : Option String
  cantidad : Option ℚ
  descuento : Option ℚ
deriving DecidableEq

/-- One enriched detail row, with the derived columns computed at lines
96-103 of `src/calc_pedido.py` (identically, lines 105-112 of
`src/downloads/calc_pedido.py`). -/
structure EnrichedRow where
  producto : Option String
  cantidad : ℚ
  descuento : ℚ
  precioVenta : Option ℚ
  precioVentaAplicado : Option ℚ
  precioCompra : Option ℚ
  ingresoLinea : Option ℚ
  costoLinea : Option ℚ
  utilidadLinea : Option ℚ
  margenLinea : Option ℚ
deriving DecidableEq

/-- The summary record (`resumen`): totals and weighted margin. -/
structure Resumen where
  ingresoTotal : ℚ
  costoTotal : ℚ
  utilidadTotal : ℚ
  margenPonderado : ℚ
deriving DecidableEq

/-- Python exceptions raised by the embedded code.
`unknownPolicy` is the `ValueError` of the unknown-deduplication-policy
branch (the specification's `ConfigurationError`); `allNullArgmax` is the
error pandas raises when `idxmax`/`idxmin` runs on an all-missing column;
`keyError` is a Python `KeyError` for a missing dataframe column;
`emptyGroup` is unreachable (pandas `groupby` groups are nonempty). -/
inductive CalcError where
  | unknownPolicy (policy : String)
  | allNullArgmax
  | emptyGroup
  | keyError (column : String)
deriving DecidableEq

/-! ### Models of the pandas library operations used by the scripts -/

/-- Model of `Series.nunique(dropna=False)`: the number of distinct
values, counting a missing value as one ordinary value (all missing
values are identified with each other, `null`-safe equality). -/
def nunique (xs : List (Option ℚ)) : Nat := xs.dedup.length

/-- Model of `g[col].astype(float).idxmax()` followed by `g.loc[[idx]]`:
pandas `idxmax` skips missing values (`skipna=True`) and returns the
label of the first row attaining the maximum of the non-missing values;
on an all-missing column it raises (here: `none`).  Returns the selected
row together with the attained maximum. -/
def idxmaxRow (f : CatRow → Option ℚ) : List CatRow → Option (CatRow × ℚ)
  | [] => none
  | r :: rs =>
    match f r with
    | none => idxmaxRow f rs
    | some v =>
      match idxmaxRow f rs with
      | none => some (r, v)
      | some (s, m) => if v < m then some (s, m) else some (r, v)

/-- Model of `g[col].astype(float).idxmin()` followed by `g.loc[[idx]]`:
first row attaining the minimum of the non-missing values. -/
def idxminRow (f : CatRow → Option ℚ) : List CatRow → Option (CatRow × ℚ)
  | [] => none
  | r :: rs =>
    match f r with
    | none => idxminRow f rs
    | some v =>
      match idxminRow f rs with
      | none => some (r, v)
      | some (s, m) => if m < v then some (s, m) else some (r, v)

/-- Model of `Series.astype(float).mean()`: the arithmetic mean of the
non-missing values (`skipna=True`), `NaN` (here `none`) when every value
is missing. -/
def meanOpt (xs : List (Option ℚ)) : Option ℚ :=
  let vs := xs.filterMap id
  if vs.length = 0 then none else some (vs.sum / (vs.length : ℚ))

/-- Model of `pandas.unique` / `Series.unique()`: the distinct values in
order of first appearance (missing values collapse to a single one).
`List.dedup` keeps the last occurrence of each value, so reversing on
both sides keeps the first occurrence. -/
def uniqueFirst {α : Type _} [DecidableEq α] (l : List α) : List α :=
  l.reverse.dedup.reverse

/-- Insertion into a `≤`-sorted list of strings. -/
def insertSorted (s : String) : List String → List String
  | [] => [s]
  | t :: ts => if s ≤ t then s :: t :: ts else t :: insertSorted s ts

/-- Model of the group-key ordering produced by `DataFrame.groupby`:
pandas sorts the group keys (the default `sort=True`). -/
def sortStrings (l : List String) : List String := l.foldr insertSorted []

/-- Model of `DataFrame.drop_duplicates(keycol)`: keep the first row for
each key, in order.  `seen` accumulates the keys already emitted. -/
def dropDupByKey (key : CatRow → String) : List CatRow → List String → List CatRow
  | [], _ => []
  | r :: rs, seen =>
    if key r ∈ seen then dropDupByKey key rs seen
    else r :: dropDupByKey key rs (key r :: seen)

/-- Column names produced by `left.merge(right, on:=k)` with the default
`suffixes=("_x", "_y")`: a column occurring in both frames, other than
the join key, is renamed on both sides; the right copy of the join key is
dropped. -/
def mergeColumns (left right : List String) (key : String) : List String :=
  (left.map fun c => if c ≠ key ∧ c ∈ right then c ++ "_x" else c) ++
    ((right.filter fun c => c ≠ key).map fun c => if c ∈ left then c ++ "_y" else c)

/-- Helper for the whitespace collapsing of `re.sub(r"\s+", " ", s)`:
every maximal run of whitespace characters becomes a single space.
`prevWS` records whether the previous character was part of a run. -/
def collapseWSAux : Bool → List Char → List Char
  | _, [] => []
  | prevWS, c :: cs =>
    if c.isWhitespace then
      if prevWS then collapseWSAux true cs
      else ' ' :: collapseWSAux true cs
    else c :: collapseWSAux false cs

/-- The per-line arithmetic of the enrichment step, identical in the two
files (`src/calc_pedido.py` lines 96-103, `src/downloads/calc_pedido.py`
lines 105-112), for one order row `o` left-joined with its catalog match
`m` (`none` when the normalized key had no match):
`fillna` defaults for `descuento_%` and `cantidad`, then
`precio_venta_aplicado`, `ingreso_linea`, `costo_linea`,
`utilidad_linea`, and `margen_linea` (division by
`ingreso_linea.replace(\x7b0: pd.NA\x7d)`, so a zero or missing revenue
gives a missing margin); missing values propagate through the
arithmetic as in pandas. -/
def enrichLine (o : PedRow) (m : Option CatRow) : EnrichedRow :=
  let venta := m.bind fun c => c.precioVenta
  let compra := m.bind fun c => c.precioCompra
  let desc := o.descuento.getD 0
  let cant := o.cantidad.getD 0
  let aplicado := venta.map fun v => v * (1 - desc)
  let ingreso := aplicado.map fun a => cant * a
  let costo := compra.map fun c => cant * c
  let utilidad :=
    match ingreso, costo with
    | some i, some c => some (i - c)
    | _, _ => none
  let margen :=
    match utilidad, ingreso with
    | some u, some i => if i = 0 then none else some (u / i)
    | _, _ => none
  { producto := o.producto, cantidad := cant, descuento := desc,
    precioVenta := venta, precioVentaAplicado := aplicado, precioCompra := compra,
    ingresoLinea := ingreso, costoLinea := costo, utilidadLinea := utilidad,
    margenLinea := margen }

/-! ### Embedding of `src/calc_pedido.py` -/

namespace CalcPedido

/-- Model of `norm_text` (lines 8-14): `pd.isna` maps a missing name to
the empty string; otherwise `str.strip()` (drop leading and trailing
whitespace), `re.sub(r"\s+", " ", s)` (collapse whitespace runs), and
`str.upper()` (modelled by `Char.toUpper`, faithful on the ASCII names
the scripts compare). -/
def norm_text (s : Option String) : String :=
  match s with
  | none => ""
  | some t =>
    let stripped :=
      ((t.data.dropWhile Char.isWhitespace).reverse.dropWhile Char.isWhitespace).reverse
    String.mk ((collapseWSAux false stripped).map Char.toUpper)

/-- The normalized key column `_key = base["producto"].apply(norm_text)`
(line 26). -/
def rowKey (r : CatRow) : String := norm_text r.producto

/-- Number of rows of `rows` whose normalized key is `k`. -/
def keyCount (rows : List CatRow) (k : String) : Nat :=
  rows.countP fun r => rowKey r = k

/-- The rows marked by `base.duplicated("_key", keep=False)` (line 28):
those whose key occurs at least twice in the table, in original order. -/
def dupsOf (rows : List CatRow) : List CatRow :=
  rows.filter fun r => 2 ≤ keyCount rows (rowKey r)

/-- The complementary rows (`uniques`, line 30), in original order. -/
def uniquesOf (rows : List CatRow) : List CatRow :=
  rows.filter fun r => keyCount rows (rowKey r) < 2

/-- The distinct keys of the duplicated rows, in the sorted order in
which `dups.groupby("_key")` (line 36) iterates the groups. -/
def dupKeys (rows : List CatRow) : List String :=
  sortStrings ((dupsOf rows).map rowKey).dedup

/-- The body of the per-group loop (lines 37-56): equality-skip when both
price columns have a single value under null-safe equality, otherwise
the policy dispatch, with the `ValueError` of line 56 for an unknown
policy.  A pandas group is never empty; the `[]` case is unreachable. -/
def resolveGroup (policy : String) (g : List CatRow) : Except CalcError CatRow :=
  match g with
  | [] => .error .emptyGroup
  | r :: _ =>
    if nunique (g.map fun x => x.precioCompra) = 1 ∧
        nunique (g.map fun x => x.precioVenta) = 1 then
      .ok r
    else if policy = "first" then
      .ok r
    else if policy = "max_venta" then
      match idxmaxRow (fun x => x.precioVenta) g with
      | some (s, _) => .ok s
      | none => .error .allNullArgmax
    else if policy = "min_costo" then
      match idxminRow (fun x => x.precioCompra) g with
      | some (s, _) => .ok s
      | none => .error .allNullArgmax
    else if policy = "avg" then
      .ok { r with precioCompra := meanOpt (g.map fun x => x.precioCompra),
                   precioVenta := meanOpt (g.map fun x => x.precioVenta) }
    else
      .error (.unknownPolicy policy)

/-- The `for _, g in dups.groupby("_key")` loop (lines 35-56) collecting
`agg_rows`: one resolved row per duplicated key, the first raised
exception aborting the whole call. -/
def resolveGroups (policy : String) (dups : List CatRow) :
    List String → Except CalcError (List CatRow)
  | [] => .ok []
  | k :: ks =>
    match resolveGroup policy (dups.filter fun r => rowKey r = k) with
    | .error e => .error e
    | .ok r =>
      match resolveGroups policy dups ks with
      | .error e => .error e
      | .ok rest => .ok (r :: rest)

/-- Model of `deduplicate_catalog` (lines 16-60): unique rows pass
through unchanged; when no key is duplicated the function returns early
(line 33) without ever looking at the policy; otherwise the resolved
duplicate groups are appended after the unique rows (lines 58-59). -/
def deduplicate_catalog (rows : List CatRow) (policy : String) :
    Except CalcError (List CatRow) :=
  if (dupsOf rows).isEmpty then
    .ok (uniquesOf rows)
  else
    match resolveGroups policy (dupsOf rows) (dupKeys rows) with
    | .error e => .error e
    | .ok agg => .ok (uniquesOf rows ++ agg)

/-- Columns of `df_cat_clean` at the merge of line 86 (after line 79
added `producto_norm`). -/
def catCleanColumns : List String :=
  ["producto", "precio compra", "precio venta", "producto_norm"]

/-- Columns of `df_ped` at the merge of line 86 (after line 82 added
`producto_norm`). -/
def pedColumns : List String :=
  ["producto", "cantidad", "descuento_%", "producto_norm"]

/-- Model of `calcular` (lines 62-122) after the file loading and
required-column checks (lines 63-75, I/O glue outside the core): catalog
deduplication, `drop_duplicates("producto_norm")`, the left `m:1` merge
of line 86 and the subsequent computations.  The merge is written
without a `suffixes` argument, so pandas renames the overlapping
`producto` column of both frames to `producto_x` / `producto_y`; line 89
then selects column `producto`, which no longer exists, raising a Python
`KeyError` - modelled by the membership test on `mergeColumns`.  The
remaining computations (the `.ok` branch) mirror lines 89-120 and are
unreachable. -/
def calcular (dfCat : List CatRow) (dfPed : List PedRow) (policy : String) :
    Except CalcError (List EnrichedRow × Resumen × List String) :=
  match deduplicate_catalog dfCat policy with
  | .error e => .error e
  | .ok clean =>
    let rightUnique := dropDupByKey rowKey clean []
    let merged := dfPed.map fun o =>
      (o, rightUnique.find? fun c => rowKey c = norm_text o.producto)
    let mergedCols := mergeColumns pedColumns catCleanColumns "producto_norm"
    if "producto" ∈ mergedCols then
      let bad := merged.filter fun p =>
        ((p.2.bind fun c => c.precioVenta).isNone ||
          (p.2.bind fun c => c.precioCompra).isNone)
      let missing := uniqueFirst ((bad.map fun p => p.1.producto).filterMap id)
      let enriched := merged.map fun p => enrichLine p.1 p.2
      let totalIngreso := (enriched.map fun e => e.ingresoLinea.getD 0).sum
      let totalCosto := (enriched.map fun e => e.costoLinea.getD 0).sum
      let totalUtil := (enriched.map fun e => e.utilidadLinea.getD 0).sum
      let resumen : Resumen :=
        { ingresoTotal := totalIngreso, costoTotal := totalCosto,
          utilidadTotal := totalUtil,
          margenPonderado := if totalIngreso = 0 then 0 else totalUtil / totalIngreso }
      .ok (enriched, resumen, missing)
    else
      .error (.keyError "producto")

end CalcPedido

/-! ### Embedding of `src/downloads/calc_pedido.py` -/

namespace Downloads

/-- Model of `norm_text` (lines 7-14), textually the same computation as
in `src/calc_pedido.py`. -/
def norm_text (s : Option String) : String :=
  match s with
  | none => ""
  | some t =>
    let stripped :=
      ((t.data.dropWhile Char.isWhitespace).reverse.dropWhile Char.isWhitespace).reverse
    String.mk ((collapseWSAux false stripped).map Char.toUpper)

/-- The `_key` column (line 30). -/
def rowKey (r : CatRow) : String := norm_text r.producto

/-- Number of rows of `rows` whose normalized key is `k`. -/
def keyCount (rows : List CatRow) (k : String) : Nat :=
  rows.countP fun r => rowKey r = k

/-- Rows marked by `base.duplicated("_key", keep=False)` (line 33). -/
def dupsOf (rows : List CatRow) : List CatRow :=
  rows.filter fun r => 2 ≤ keyCount rows (rowKey r)

/-- The complementary unique rows (line 35). -/
def uniquesOf (rows : List CatRow) : List CatRow :=
  rows.filter fun r => keyCount rows (rowKey r) < 2

/-- The sorted distinct keys over which `dups.groupby("_key")` iterates
(line 43). -/
def dupKeys (rows : List CatRow) : List String :=
  sortStrings ((dupsOf rows).map rowKey).dedup

/-- The body of the per-group loop (lines 45-70). -/
def resolveGroup (policy : String) (g : List CatRow) : Except CalcError CatRow :=
  match g with
  | [] => .error .emptyGroup
  | r :: _ =>
    if nunique (g.map fun x => x.precioCompra) = 1 ∧
        nunique (g.map fun x => x.precioVenta) = 1 then
      .ok r
    else if policy = "first" then
      .ok r
    else if policy = "max_venta" then
      match idxmaxRow (fun x => x.precioVenta) g with
      | some (s, _) => .ok s
      | none => .error .allNullArgmax
    else if policy = "min_costo" then
      match idxminRow (fun x => x.precioCompra) g with
      | some (s, _) => .ok s
      | none => .error .allNullArgmax
    else if policy = "avg" then
      .ok { r with precioCompra := meanOpt (g.map fun x => x.precioCompra),
                   precioVenta := meanOpt (g.map fun x => x.precioVenta) }
    else
      .error (.unknownPolicy policy)

/-- The `for key, g in dups.groupby("_key")` loop (lines 42-70). -/
def resolveGroups (policy : String) (dups : List CatRow) :
    List String → Except CalcError (List CatRow)
  | [] => .ok []
  | k :: ks =>
    match resolveGroup policy (dups.filter fun r => rowKey r = k) with
    | .error e => .error e
    | .ok r =>
      match resolveGroups policy dups ks with
      | .error e => .error e
      | .ok rest => .ok (r :: rest)

/-- Model of `deduplicate_catalog` (lines 16-74), textually the same
computation as in `src/calc_pedido.py`. -/
def deduplicate_catalog (rows : List CatRow) (policy : String) :
    Except CalcError (List CatRow) :=
  if (dupsOf rows).isEmpty then
    .ok (uniquesOf rows)
  else
    match resolveGroups policy (dupsOf rows) (dupKeys rows) with
    | .error e => .error e
    | .ok agg => .ok (uniquesOf rows ++ agg)

/-- Model of `main` (lines 76-132) after the file loading (I/O glue):
deduplication, `drop_duplicates("producto_norm")`, the left `m:1` merge
of line 93 - here with `suffixes=("", "_cat")`, so the order-side
`producto` column keeps its name - the unmatched-product list of line 98
(no `dropna`: a missing product name stays in the list, and `unique()`
collapses repeats, missing values included, keeping first occurrences),
and the metric computations of lines 105-117.  The printed detail table
and summary are returned. -/
def main (dfCat : List CatRow) (dfPed : List PedRow) (policy : String) :
    Except CalcError (List EnrichedRow × Resumen × List (Option String)) :=
  match deduplicate_catalog dfCat policy with
  | .error e => .error e
  | .ok clean =>
    let rightUnique := dropDupByKey rowKey clean []
    let merged := dfPed.map fun o =>
      (o, rightUnique.find? fun c => rowKey c = norm_text o.producto)
    let bad := merged.filter fun p =>
      ((p.2.bind fun c => c.precioVenta).isNone ||
        (p.2.bind fun c => c.precioCompra).isNone)
    let missing := uniqueFirst (bad.map fun p => p.1.producto)
    let enriched := merged.map fun p => enrichLine p.1 p.2
    let totalIngreso := (enriched.map fun e => e.ingresoLinea.getD 0).sum
    let totalCosto := (enriched.map fun e => e.costoLinea.getD 0).sum
    let totalUtil := (enriched.map fun e => e.utilidadLinea.getD 0).sum
    let resumen : Resumen :=
      { ingresoTotal := totalIngreso, costoTotal := totalCosto,
        utilidadTotal := totalUtil,
        margenPonderado := if totalIngreso = 0 then 0 else totalUtil / totalIngreso }
    .ok (enriched, resumen, missing)

end Downloads

deriving instance DecidableEq for Except

/-! ### Generic lemmas about the pandas models -/

theorem count_map_eq_countP {α β : Type _} [DecidableEq β] (f : α → β) (l : List α) (b : β) :
    (l.map f).count b = l.countP fun a => f a = b := by
  induction l with
  | nil => rfl
  | cons x t ih =>
    by_cases h : f x = b <;>
      simp [List.count_cons, List.countP_cons, ih, h]

theorem dedup_of_forall_eq {α : Type _} [DecidableEq α] (a : α) (l : List α)
    (h : ∀ x ∈ l, x = a) : (a :: l).dedup = [a] := by
  induction l with
  | nil => simp
  | cons x t ih =>
    have hx : x = a := h x (by simp)
    subst hx
    rw [List.dedup_cons_of_mem (List.mem_cons_self x t)]
    exact ih fun y hy => h y (List.mem_cons_of_mem _ hy)

theorem forall_eq_of_dedup_length {α : Type _} [DecidableEq α] {a : α} {l : List α}
    (h : (a :: l).dedup.length = 1) : ∀ x ∈ l, x = a := by
  obtain ⟨c, hc⟩ := List.length_eq_one.mp h
  intro x hx
  have hxc : x = c := by
    have hm : x ∈ (a :: l).dedup := List.mem_dedup.mpr (by simp [hx])
    rw [hc] at hm; simpa using hm
  have hac : a = c := by
    have hm : a ∈ (a :: l).dedup := List.mem_dedup.mpr (by simp)
    rw [hc] at hm; simpa using hm
  rw [hxc, hac]

/-- The equality-skip test of the scripts, `nunique(dropna=False) == 1`,
holds exactly when all values of the column agree under null-safe
equality. -/
theorem nunique_eq_one_iff (a : Option ℚ) (l : List (Option ℚ)) :
    nunique (a :: l) = 1 ↔ ∀ x ∈ l, x = a := by
  constructor
  · exact forall_eq_of_dedup_length
  · intro h
    rw [nunique, dedup_of_forall_eq a l h]
    rfl

theorem insertSorted_count (s a : String) (l : List String) :
    (insertSorted s l).count a = (s :: l).count a := by
  induction l with
  | nil => rfl
  | cons t ts ih =>
    by_cases h : s ≤ t
    · simp [insertSorted, h]
    · simp only [insertSorted, if_neg h, List.count_cons] at *
      omega

theorem sortStrings_count (l : List String) (a : String) :
    (sortStrings l).count a = l.count a := by
  induction l with
  | nil => rfl
  | cons x t ih =>
    show (insertSorted x (sortStrings t)).count a = _
    rw [insertSorted_count, List.count_cons, List.count_cons, ih]

theorem sortStrings_mem (l : List String) (a : String) : a ∈ sortStrings l ↔ a ∈ l := by
  rw [← List.count_pos_iff, ← List.count_pos_iff, sortStrings_count]

theorem sortStrings_nodup {l : List String} (h : l.Nodup) : (sortStrings l).Nodup := by
  rw [List.nodup_iff_count_le_one] at *
  intro a
  rw [sortStrings_count]
  exact h a

theorem mem_uniqueFirst {α : Type _} [DecidableEq α] (l : List α) (a : α) :
    a ∈ uniqueFirst l ↔ a ∈ l := by
  simp [uniqueFirst, List.mem_dedup]

theorem idxmaxRow_eq_none {f : CatRow → Option ℚ} :
    ∀ {g : List CatRow}, idxmaxRow f g = none → ∀ x ∈ g, f x = none := by
  intro g
  induction g with
  | nil => simp
  | cons r rs ih =>
    intro h x hx
    rw [idxmaxRow] at h
    cases hfr : f r with
    | none =>
      rw [hfr] at h
      rcases List.mem_cons.mp hx with rfl | hx'
      · exact hfr
      · exact ih h x hx'
    | some v =>
      rw [hfr] at h
      cases h' : idxmaxRow f rs <;> rw [h'] at h <;> simp at h
      split at h <;> simp at h

theorem idxminRow_eq_none {f : CatRow → Option ℚ} :
    ∀ {g : List CatRow}, idxminRow f g = none → ∀ x ∈ g, f x = none := by
  intro g
  induction g with
  | nil => simp
  | cons r rs ih =>
    intro h x hx
    rw [idxminRow] at h
    cases hfr : f r with
    | none =>
      rw [hfr] at h
      rcases List.mem_cons.mp hx with rfl | hx'
      · exact hfr
      · exact ih h x hx'
    | some v =>
      rw [hfr] at h
      cases h' : idxminRow f rs <;> rw [h'] at h <;> simp at h
      split at h <;> simp at h

/-- Pandas `idxmax` (with `loc`) selects the first row whose value
attains the maximum of the non-missing values: the attained value is an
upper bound of all non-missing values, and `find?` returns the selected
row. -/
theorem idxmaxRow_spec {f : CatRow → Option ℚ} :
    ∀ {g : List CatRow} {s : CatRow} {M : ℚ}, idxmaxRow f g = some (s, M) →
      (∀ x ∈ g, ∀ w, f x = some w → w ≤ M) ∧
        g.find? (fun x => f x = some M) = some s := by
  intro g
  induction g with
  | nil => intro s M h; simp [idxmaxRow] at h
  | cons r rs ih =>
    intro s M h
    rw [idxmaxRow] at h
    cases hfr : f r with
    | none =>
      rw [hfr] at h
      obtain ⟨hbound, hfind⟩ := ih h
      refine ⟨?_, ?_⟩
      · intro x hx w hw
        rcases List.mem_cons.mp hx with rfl | hx'
        · rw [hfr] at hw; exact absurd hw (by simp)
        · exact hbound x hx' w hw
      · rw [List.find?_cons_of_neg _ (by simp [hfr]), hfind]
    | some v =>
      rw [hfr] at h
      cases h' : idxmaxRow f rs with
      | none =>
        rw [h'] at h
        simp only [Option.some.injEq, Prod.mk.injEq] at h
        obtain ⟨rfl, rfl⟩ := h
        refine ⟨?_, ?_⟩
        · intro x hx w hw
          rcases List.mem_cons.mp hx with rfl | hx'
          · rw [hfr] at hw; exact le_of_eq (Option.some.inj hw).symm
          · rw [idxmaxRow_eq_none h' x hx'] at hw; exact absurd hw (by simp)
        · exact List.find?_cons_of_pos _ (by simp [hfr])
      | some p =>
        obtain ⟨s', m⟩ := p
        rw [h'] at h
        obtain ⟨hbound, hfind⟩ := ih h'
        by_cases hvm : v < m
        · simp only [if_pos hvm, Option.some.injEq, Prod.mk.injEq] at h
          obtain ⟨rfl, rfl⟩ := h
          refine ⟨?_, ?_⟩
          · intro x hx w hw
            rcases List.mem_cons.mp hx with rfl | hx'
            · rw [hfr] at hw
              exact le_of_lt ((Option.some.inj hw) ▸ hvm)
            · exact hbound x hx' w hw
          · rw [List.find?_cons_of_neg _ (by simp [hfr]; exact ne_of_lt hvm), hfind]
        · simp only [if_neg hvm, Option.some.injEq, Prod.mk.injEq] at h
          obtain ⟨rfl, rfl⟩ := h
          push_neg at hvm
          refine ⟨?_, ?_⟩
          · intro x hx w hw
            rcases List.mem_cons.mp hx with rfl | hx'
            · rw [hfr] at hw; exact le_of_eq (Option.some.inj hw).symm
            · exact le_trans (hbound x hx' w hw) hvm
          · exact List.find?_cons_of_pos _ (by simp [hfr])

/-- Pandas `idxmin` (with `loc`) selects the first row whose value
attains the minimum of the non-missing values. -/
theorem idxminRow_spec {f : CatRow → Option ℚ} :
    ∀ {g : List CatRow} {s : CatRow} {M : ℚ}, idxminRow f g = some (s, M) →
      (∀ x ∈ g, ∀ w, f x = some w → M ≤ w) ∧
        g.find? (fun x => f x = some M) = some s := by
  intro g
  induction g with
  | nil => intro s M h; simp [idxminRow] at h
  | cons r rs ih =>
    intro s M h
    rw [idxminRow] at h
    cases hfr : f r with
    | none =>
      rw [hfr] at h
      obtain ⟨hbound, hfind⟩ := ih h
      refine ⟨?_, ?_⟩
      · intro x hx w hw
        rcases List.mem_cons.mp hx with rfl | hx'
        · rw [hfr] at hw; exact absurd hw (by simp)
        · exact hbound x hx' w hw
      · rw [List.find?_cons_of_neg _ (by simp [hfr]), hfind]
    | some v =>
      rw [hfr] at h
      cases h' : idxminRow f rs with
      | none =>
        rw [h'] at h
        simp only [Option.some.injEq, Prod.mk.injEq] at h
        obtain ⟨rfl, rfl⟩ := h
        refine ⟨?_, ?_⟩
        · intro x hx w hw
          rcases List.mem_cons.mp hx with rfl | hx'
          · rw [hfr] at hw; exact le_of_eq (Option.some.inj hw)
          · rw [idxminRow_eq_none h' x hx'] at hw; exact absurd hw (by simp)
        · exact List.find?_cons_of_pos _ (by simp [hfr])
      | some p =>
        obtain ⟨s', m⟩ := p
        rw [h'] at h
        obtain ⟨hbound, hfind⟩ := ih h'
        by_cases hmv : m < v
        · simp only [if_pos hmv, Option.some.injEq, Prod.mk.injEq] at h
          obtain ⟨rfl, rfl⟩ := h
          refine ⟨?_, ?_⟩
          · intro x hx w hw
            rcases List.mem_cons.mp hx with rfl | hx'
            · rw [hfr] at hw
              exact le_of_lt ((Option.some.inj hw) ▸ hmv)
            · exact hbound x hx' w hw
          · rw [List.find?_cons_of_neg _ (by simp [hfr]; exact (ne_of_lt hmv).symm), hfind]
        · simp only [if_neg hmv, Option.some.injEq, Prod.mk.injEq] at h
          obtain ⟨rfl, rfl⟩ := h
          push_neg at hmv
          refine ⟨?_, ?_⟩
          · intro x hx w hw
            rcases List.mem_cons.mp hx with rfl | hx'
            · rw [hfr] at hw; exact le_of_eq (Option.some.inj hw)
            · exact le_trans hmv (hbound x hx' w hw)
          · exact List.find?_cons_of_pos _ (by simp [hfr])

theorem length_filterMap_id_of_isSome {α : Type _} :
    ∀ {xs : List (Option α)}, (∀ x ∈ xs, x.isSome) →
      (xs.filterMap id).length = xs.length := by
  intro xs
  induction xs with
  | nil => simp
  | cons x t ih =>
    intro h
    cases hx : x with
    | none => exact absurd (h x (by simp)) (by simp [hx])
    | some v =>
      simp only [List.filterMap_cons, id_eq, List.length_cons]
      rw [ih fun y hy => h y (List.mem_cons_of_mem _ hy)]

/-! ### Structural lemmas about the deduplication of `src/calc_pedido.py` -/

namespace CalcPedido

theorem keyCount_eq_length_filter (rows : List CatRow) (k : String) :
    keyCount rows k = (rows.filter fun r => rowKey r = k).length := by
  rw [keyCount, List.countP_eq_length_filter]

theorem mem_dupsOf {rows : List CatRow} {r : CatRow} :
    r ∈ dupsOf rows ↔ r ∈ rows ∧ 2 ≤ keyCount rows (rowKey r) := by
  simp [dupsOf, List.mem_filter]

theorem mem_uniquesOf {rows : List CatRow} {r : CatRow} :
    r ∈ uniquesOf rows ↔ r ∈ rows ∧ keyCount rows (rowKey r) < 2 := by
  simp [uniquesOf, List.mem_filter]

/-- For a duplicated key, filtering the duplicated rows by the key gives
the same group as filtering the whole table by the key. -/
theorem dupsOf_filter_key {rows : List CatRow} {k : String}
    (h2 : 2 ≤ keyCount rows k) :
    ((dupsOf rows).filter fun r => rowKey r = k) = rows.filter fun r => rowKey r = k := by
  rw [dupsOf, List.filter_filter]
  refine List.filter_congr fun a _ => ?_
  by_cases hk : rowKey a = k
  · simp [hk, h2]
  · simp [hk]

theorem mem_dupKeys {rows : List CatRow} {k : String} :
    k ∈ dupKeys rows ↔ ∃ r ∈ dupsOf rows, rowKey r = k := by
  rw [dupKeys, sortStrings_mem, List.mem_dedup]
  simp [List.mem_map]

theorem dupKeys_nodup (rows : List CatRow) : (dupKeys rows).Nodup :=
  sortStrings_nodup (List.nodup_dedup _)

theorem keyCount_of_mem_dupKeys {rows : List CatRow} {k : String}
    (h : k ∈ dupKeys rows) : 2 ≤ keyCount rows k := by
  obtain ⟨r, hr, hk⟩ := mem_dupKeys.mp h
  exact hk ▸ (mem_dupsOf.mp hr).2

/-- Any successfully resolved group row carries the product name of one
of the group's rows (a selected row, or the first row for `avg`). -/
theorem resolveGroup_ok_producto {policy : String} {g : List CatRow} {res : CatRow}
    (hres : resolveGroup policy g = .ok res) :
    ∃ x ∈ g, res.producto = x.producto := by
  cases g with
  | nil => simp [resolveGroup] at hres
  | cons r rs =>
    rw [resolveGroup] at hres
    split at hres
    · cases hres; exact ⟨_, List.mem_cons_self _ _, rfl⟩
    · split at hres
      · cases hres; exact ⟨_, List.mem_cons_self _ _, rfl⟩
      · split at hres
        · cases hidx : idxmaxRow (fun x => x.precioVenta) (r :: rs) with
          | none => rw [hidx] at hres; simp at hres
          | some p =>
            obtain ⟨s, m⟩ := p
            rw [hidx] at hres
            simp only [Except.ok.injEq] at hres
            subst hres
            exact ⟨s, List.mem_of_find?_eq_some (idxmaxRow_spec hidx).2, rfl⟩
        · split at hres
          · cases hidx : idxminRow (fun x => x.precioCompra) (r :: rs) with
            | none => rw [hidx] at hres; simp at hres
            | some p =>
              obtain ⟨s, m⟩ := p
              rw [hidx] at hres
              simp only [Except.ok.injEq] at hres
              subst hres
              exact ⟨s, List.mem_of_find?_eq_some (idxminRow_spec hidx).2, rfl⟩
          · split at hres
            · cases hres; exact ⟨_, List.mem_cons_self _ _, rfl⟩
            · simp at hres

/-- `rowKey` only depends on the product name. -/
theorem rowKey_eq_of_producto {a b : CatRow} (h : a.producto = b.producto) :
    rowKey a = rowKey b := by
  rw [rowKey, rowKey, h]

theorem resolveGroups_ok_forall2 {policy : String} {d : List CatRow} :
    ∀ {ks : List String} {agg : List CatRow},
      resolveGroups policy d ks = .ok agg →
      List.Forall₂ (fun k r => resolveGroup policy (d.filter fun x => rowKey x = k) = .ok r)
        ks agg := by
  intro ks
  induction ks with
  | nil =>
    intro agg h
    rw [resolveGroups] at h
    cases h
    exact List.Forall₂.nil
  | cons k ks ih =>
    intro agg h
    rw [resolveGroups] at h
    cases hg : resolveGroup policy (d.filter fun x => rowKey x = k) with
    | error e => rw [hg] at h; simp at h
    | ok r =>
      rw [hg] at h
      cases hrest : resolveGroups policy d ks with
      | error e => rw [hrest] at h; simp at h
      | ok rest =>
        rw [hrest] at h
        simp only [Except.ok.injEq] at h
        subst h
        exact List.Forall₂.cons hg (ih hrest)

theorem forall2_keys {policy : String} {d : List CatRow} :
    ∀ {ks : List String} {agg : List CatRow},
      List.Forall₂ (fun k r => resolveGroup policy (d.filter fun x => rowKey x = k) = .ok r)
        ks agg →
      agg.map rowKey = ks := by
  intro ks agg h
  induction h with
  | nil => rfl
  | @cons k r ks' agg' hkr htail ih =>
    simp only [List.map_cons, ih]
    obtain ⟨x, hx, hprod⟩ := resolveGroup_ok_producto hkr
    have hxk : rowKey x = k := by
      have := List.mem_filter.mp hx
      simpa using this.2
    rw [rowKey_eq_of_producto hprod, hxk]

theorem forall2_filter_key {policy : String} {d : List CatRow} {k : String} :
    ∀ {ks : List String} {agg : List CatRow},
      List.Forall₂ (fun q r => resolveGroup policy (d.filter fun x => rowKey x = q) = .ok r)
        ks agg →
      ks.Nodup → k ∈ ks →
      ∃ res, resolveGroup policy (d.filter fun x => rowKey x = k) = .ok res ∧
        agg.filter (fun x => rowKey x = k) = [res] := by
  intro ks agg h
  induction h with
  | nil => intro _ hk; simp at hk
  | @cons q r ks' agg' hqr htail ih =>
    intro hnd hk
    have hrq : rowKey r = q := by
      obtain ⟨x, hx, hprod⟩ := resolveGroup_ok_producto hqr
      have hxq : rowKey x = q := by
        have := List.mem_filter.mp hx
        simpa using this.2
      rw [rowKey_eq_of_producto hprod, hxq]
    rcases List.mem_cons.mp hk with rfl | hk'
    · refine ⟨r, hqr, ?_⟩
      rw [List.filter_cons_of_pos (by simp [hrq])]
      have htl : agg'.filter (fun x => rowKey x = k) = [] := by
        rw [List.filter_eq_nil_iff]
        intro x hx
        have hxmem : rowKey x ∈ ks' := by
          rw [← forall2_keys htail]
          exact List.mem_map_of_mem rowKey hx
        simp only [decide_eq_true_eq]
        intro hxk
        exact (List.nodup_cons.mp hnd).1 (hxk ▸ hxmem)
      rw [htl]
    · have hkq : k ≠ q := by
        rintro rfl
        exact (List.nodup_cons.mp hnd).1 hk'
      rw [List.filter_cons_of_neg (by simp [hrq, hkq.symm])]
      exact ih (List.nodup_cons.mp hnd).2 hk'

/-- Central lemma: on a successful run, the output rows with a
duplicated key `k` are exactly the single row produced by the per-group
resolution of the key's group (the group taken from the whole input
table, in input order). -/
theorem dedup_ok_key {rows : List CatRow} {policy : String} {out : List CatRow} {k : String}
    (hout : deduplicate_catalog rows policy = .ok out)
    (h2 : 2 ≤ keyCount rows k) :
    ∃ res, resolveGroup policy (rows.filter fun x => rowKey x = k) = .ok res ∧
      out.filter (fun x => rowKey x = k) = [res] := by
  have hne : ∃ r ∈ dupsOf rows, rowKey r = k := by
    have hlen : 0 < (rows.filter fun r => rowKey r = k).length := by
      rw [← keyCount_eq_length_filter]; omega
    obtain ⟨r, hr⟩ := List.exists_mem_of_length_pos hlen
    have hrk : rowKey r = k := by
      have := List.mem_filter.mp hr
      simpa using this.2
    refine ⟨r, mem_dupsOf.mpr ⟨(List.mem_filter.mp hr).1, ?_⟩, hrk⟩
    rw [hrk]; exact h2
  have hkd : k ∈ dupKeys rows := mem_dupKeys.mpr hne
  rw [deduplicate_catalog] at hout
  have hemp : (dupsOf rows).isEmpty = false := by
    obtain ⟨r, hr, _⟩ := hne
    cases hd : dupsOf rows with
    | nil => rw [hd] at hr; simp at hr
    | cons a l => simp [hd]
  rw [hemp] at hout
  simp only [Bool.false_eq_true, if_false] at hout
  cases hagg : resolveGroups policy (dupsOf rows) (dupKeys rows) with
  | error e => rw [hagg] at hout; simp at hout
  | ok agg =>
    rw [hagg] at hout
    simp only [Except.ok.injEq] at hout
    subst hout
    obtain ⟨res, hres, hfil⟩ :=
      forall2_filter_key (resolveGroups_ok_forall2 hagg) (dupKeys_nodup rows) hkd
    rw [dupsOf_filter_key h2] at hres
    refine ⟨res, hres, ?_⟩
    rw [List.filter_append, hfil]
    have huniq : (uniquesOf rows).filter (fun x => rowKey x = k) = [] := by
      rw [List.filter_eq_nil_iff]
      intro x hx
      simp only [decide_eq_true_eq]
      intro hxk
      have := (mem_uniquesOf.mp hx).2
      rw [hxk] at this
      omega
    rw [huniq, List.nil_append]

theorem uniquesOf_countP_le (rows : List CatRow) (k : String) :
    (uniquesOf rows).countP (fun r => rowKey r = k) ≤ 1 := by
  by_cases h2 : 2 ≤ keyCount rows k
  · have : (uniquesOf rows).countP (fun r => rowKey r = k) = 0 := by
      rw [List.countP_eq_zero]
      intro r hr
      simp only [decide_eq_true_eq]
      intro hrk
      have := (mem_uniquesOf.mp hr).2
      rw [hrk] at this
      omega
    omega
  · have hsub : (uniquesOf rows).countP (fun r => rowKey r = k) ≤ keyCount rows k := by
      rw [keyCount]
      exact (List.filter_sublist rows).countP_le _
    omega

theorem agg_countP {rows : List CatRow} {policy : String} {agg : List CatRow}
    (hagg : resolveGroups policy (dupsOf rows) (dupKeys rows) = .ok agg) (k : String) :
    agg.countP (fun r => rowKey r = k) = (dupKeys rows).count k := by
  rw [← count_map_eq_countP, forall2_keys (resolveGroups_ok_forall2 hagg)]

/-- On a successful run no two output rows share a normalized key. -/
theorem dedup_ok_keys_nodup {rows : List CatRow} {policy : String} {out : List CatRow}
    (hout : deduplicate_catalog rows policy = .ok out) :
    (out.map rowKey).Nodup := by
  rw [List.nodup_iff_count_le_one]
  intro k
  rw [count_map_eq_countP]
  rw [deduplicate_catalog] at hout
  by_cases hemp : (dupsOf rows).isEmpty
  · rw [if_pos hemp] at hout
    simp only [Except.ok.injEq] at hout
    subst hout
    exact uniquesOf_countP_le rows k
  · rw [if_neg hemp] at hout
    cases hagg : resolveGroups policy (dupsOf rows) (dupKeys rows) with
    | error e => rw [hagg] at hout; simp at hout
    | ok agg =>
      rw [hagg] at hout
      simp only [Except.ok.injEq] at hout
      subst hout
      rw [List.countP_append, agg_countP hagg k]
      have hnd : (dupKeys rows).count k ≤ 1 :=
        List.nodup_iff_count_le_one.mp (dupKeys_nodup rows) k
      by_cases h2 : 2 ≤ keyCount rows k
      · have : (uniquesOf rows).countP (fun r => rowKey r = k) = 0 := by
          rw [List.countP_eq_zero]
          intro r hr
          simp only [decide_eq_true_eq]
          intro hrk
          have := (mem_uniquesOf.mp hr).2
          rw [hrk] at this
          omega
        omega
      · have : (dupKeys rows).count k = 0 := by
          rw [List.count_eq_zero]
          intro hk
          exact h2 (keyCount_of_mem_dupKeys hk)
        have := uniquesOf_countP_le rows k
        omega

theorem nunique_map_eq_one_iff (f : CatRow → Option ℚ) (r : CatRow) (rest : List CatRow) :
    nunique ((r :: rest).map f) = 1 ↔ ∀ x ∈ rest, f x = f r := by
  rw [List.map_cons, nunique_eq_one_iff]
  constructor
  · intro h x hx
    exact h (f x) (List.mem_map_of_mem f hx)
  · intro h x hx
    obtain ⟨y, hy, rfl⟩ := List.mem_map.mp hx
    exact h y hy

/-- The equality-skip branch: when both price columns agree under
null-safe equality the first row of the group is kept, whatever the
policy string is. -/
theorem resolveGroup_equal_prices (policy : String) {r : CatRow} {rest : List CatRow}
    (hpc : ∀ x ∈ rest, x.precioCompra = r.precioCompra)
    (hpv : ∀ x ∈ rest, x.precioVenta = r.precioVenta) :
    resolveGroup policy (r :: rest) = .ok r := by
  simp only [resolveGroup]
  rw [if_pos ⟨(nunique_map_eq_one_iff _ r rest).mpr hpc,
    (nunique_map_eq_one_iff _ r rest).mpr hpv⟩]

theorem resolveGroup_max_venta {r : CatRow} {rest : List CatRow}
    (hdis : ¬((∀ x ∈ rest, x.precioCompra = r.precioCompra) ∧
      (∀ x ∈ rest, x.precioVenta = r.precioVenta))) :
    resolveGroup "max_venta" (r :: rest) =
      match idxmaxRow (fun x => x.precioVenta) (r :: rest) with
      | some (s, _) => .ok s
      | none => .error .allNullArgmax := by
  simp only [resolveGroup]
  rw [if_neg fun hcond => hdis ⟨(nunique_map_eq_one_iff _ r rest).mp hcond.1,
    (nunique_map_eq_one_iff _ r rest).mp hcond.2⟩]
  rw [if_neg (by decide)]
  simp

theorem resolveGroup_min_costo {r : CatRow} {rest : List CatRow}
    (hdis : ¬((∀ x ∈ rest, x.precioCompra = r.precioCompra) ∧
      (∀ x ∈ rest, x.precioVenta = r.precioVenta))) :
    resolveGroup "min_costo" (r :: rest) =
      match idxminRow (fun x => x.precioCompra) (r :: rest) with
      | some (s, _) => .ok s
      | none => .error .allNullArgmax := by
  simp only [resolveGroup]
  rw [if_neg fun hcond => hdis ⟨(nunique_map_eq_one_iff _ r rest).mp hcond.1,
    (nunique_map_eq_one_iff _ r rest).mp hcond.2⟩]
  rw [if_neg (by decide), if_neg (by decide)]
  simp

theorem resolveGroup_avg {r : CatRow} {rest : List CatRow}
    (hdis : ¬((∀ x ∈ rest, x.precioCompra = r.precioCompra) ∧
      (∀ x ∈ rest, x.precioVenta = r.precioVenta))) :
    resolveGroup "avg" (r :: rest) =
      .ok { r with precioCompra := meanOpt ((r :: rest).map fun x => x.precioCompra),
                   precioVenta := meanOpt ((r :: rest).map fun x => x.precioVenta) } := by
  simp only [resolveGroup]
  rw [if_neg fun hcond => hdis ⟨(nunique_map_eq_one_iff _ r rest).mp hcond.1,
    (nunique_map_eq_one_iff _ r rest).mp hcond.2⟩]
  rw [if_neg (by decide), if_neg (by decide), if_neg (by decide)]
  simp

theorem resolveGroup_unknown {policy : String} {r : CatRow} {rest : List CatRow}
    (hdis : ¬((∀ x ∈ rest, x.precioCompra = r.precioCompra) ∧
      (∀ x ∈ rest, x.precioVenta = r.precioVenta)))
    (h1 : policy ≠ "first") (h2 : policy ≠ "max_venta")
    (h3 : policy ≠ "min_costo") (h4 : policy ≠ "avg") :
    resolveGroup policy (r :: rest) = .error (.unknownPolicy policy) := by
  simp only [resolveGroup]
  rw [if_neg fun hcond => hdis ⟨(nunique_map_eq_one_iff _ r rest).mp hcond.1,
    (nunique_map_eq_one_iff _ r rest).mp hcond.2⟩]
  rw [if_neg h1, if_neg h2, if_neg h3, if_neg h4]

theorem resolveGroup_unknown_cases {policy : String}
    (h1 : policy ≠ "first") (h2 : policy ≠ "max_venta")
    (h3 : policy ≠ "min_costo") (h4 : policy ≠ "avg")
    {g : List CatRow} (hg : g ≠ []) :
    (∃ res, resolveGroup policy g = .ok res) ∨
      resolveGroup policy g = .error (.unknownPolicy policy) := by
  cases g with
  | nil => exact absurd rfl hg
  | cons r rest =>
    simp only [resolveGroup]
    by_cases hskip : nunique ((r :: rest).map fun x => x.precioCompra) = 1 ∧
        nunique ((r :: rest).map fun x => x.precioVenta) = 1
    · rw [if_pos hskip]
      exact .inl ⟨r, rfl⟩
    · rw [if_neg hskip, if_neg h1, if_neg h2, if_neg h3, if_neg h4]
      exact .inr rfl

theorem resolveGroups_unknown {policy : String} {d : List CatRow} :
    ∀ {ks : List String},
      (∀ k ∈ ks, (∃ res, resolveGroup policy (d.filter fun x => rowKey x = k) = .ok res) ∨
        resolveGroup policy (d.filter fun x => rowKey x = k) =
          .error (.unknownPolicy policy)) →
      (∃ k ∈ ks, resolveGroup policy (d.filter fun x => rowKey x = k) =
        .error (.unknownPolicy policy)) →
      resolveGroups policy d ks = .error (.unknownPolicy policy) := by
  intro ks
  induction ks with
  | nil =>
    intro _ hex
    obtain ⟨k, hk, _⟩ := hex
    simp at hk
  | cons k ks ih =>
    intro hall hex
    rw [resolveGroups]
    rcases hall k (by simp) with ⟨res, hres⟩ | herr
    · rw [hres]
      obtain ⟨q, hq, hqerr⟩ := hex
      rcases List.mem_cons.mp hq with rfl | hq'
      · rw [hres] at hqerr
        simp at hqerr
      · rw [ih (fun a ha => hall a (List.mem_cons_of_mem _ ha)) ⟨q, hq', hqerr⟩]
    · rw [herr]

/-- Deduplication of a table that is one single multi-entry group: the
unique rows are empty and the result is the resolution of the group. -/
theorem single_group_dedup {policy k : String} {r : CatRow} {rest : List CatRow}
    (hk : ∀ x ∈ r :: rest, rowKey x = k) (hrest : rest ≠ []) :
    deduplicate_catalog (r :: rest) policy =
      match resolveGroup policy (r :: rest) with
      | .ok res => .ok [res]
      | .error e => .error e := by
  have hlen : 2 ≤ (r :: rest).length := by
    cases rest with
    | nil => exact absurd rfl hrest
    | cons b l => simp
  have hfil : ((r :: rest).filter fun x => rowKey x = k) = r :: rest := by
    rw [List.filter_eq_self]
    intro a ha
    simp [hk a ha]
  have hcount : ∀ x ∈ r :: rest, 2 ≤ keyCount (r :: rest) (rowKey x) := by
    intro x hx
    rw [hk x hx, keyCount_eq_length_filter, hfil]
    exact hlen
  have hdups : dupsOf (r :: rest) = r :: rest := by
    rw [dupsOf, List.filter_eq_self]
    intro a ha
    simp [hcount a ha]
  have huniq : uniquesOf (r :: rest) = [] := by
    rw [uniquesOf, List.filter_eq_nil_iff]
    intro a ha
    have h2 := hcount a ha
    simp only [decide_eq_true_eq]
    omega
  have hkeys : dupKeys (r :: rest) = [k] := by
    rw [dupKeys, hdups]
    have hmap : (List.map rowKey (r :: rest)).dedup = [k] := by
      rw [List.map_cons, dedup_of_forall_eq, hk r (by simp)]
      intro x hx
      obtain ⟨y, hy, rfl⟩ := List.mem_map.mp hx
      rw [hk y (List.mem_cons_of_mem _ hy), hk r (by simp)]
    rw [hmap]
    rfl
  rw [deduplicate_catalog, hdups, hkeys, huniq]
  have hemp : (r :: rest).isEmpty = false := rfl
  rw [hemp]
  simp only [Bool.false_eq_true, if_false]
  rw [resolveGroups, hfil]
  cases resolveGroup policy (r :: rest) with
  | error e => rfl
  | ok res => rw [resolveGroups]; rfl

end CalcPedido

/-! ### Lemmas about the enrichment arithmetic -/

theorem enrichLine_fields (o : PedRow) (m : Option CatRow) :
    (enrichLine o m).producto = o.producto ∧
    (enrichLine o m).cantidad = o.cantidad.getD 0 ∧
    (enrichLine o m).descuento = o.descuento.getD 0 ∧
    (enrichLine o m).precioVenta = (m.bind fun c => c.precioVenta) ∧
    (enrichLine o m).precioCompra = (m.bind fun c => c.precioCompra) ∧
    (enrichLine o m).precioVentaAplicado =
      (enrichLine o m).precioVenta.map (fun v => v * (1 - (enrichLine o m).descuento)) ∧
    (enrichLine o m).ingresoLinea =
      (enrichLine o m).precioVentaAplicado.map (fun a => (enrichLine o m).cantidad * a) ∧
    (enrichLine o m).costoLinea =
      (enrichLine o m).precioCompra.map (fun c => (enrichLine o m).cantidad * c) ∧
    (enrichLine o m).utilidadLinea =
      (match (enrichLine o m).ingresoLinea, (enrichLine o m).costoLinea with
        | some i, some c => some (i - c)
        | _, _ => none) :=
  ⟨rfl, rfl, rfl, rfl, rfl, rfl, rfl, rfl, rfl⟩

/-- A line with zero or missing revenue has a missing margin (the
`replace(0, NA)` in the margin division). -/
theorem enrichLine_margen_none (o : PedRow) (m : Option CatRow)
    (h : (enrichLine o m).ingresoLinea = some 0 ∨ (enrichLine o m).ingresoLinea = none) :
    (enrichLine o m).margenLinea = none := by
  cases hv : m.bind fun c => c.precioVenta with
  | none => simp [enrichLine, hv]
  | some v =>
    cases hc : m.bind fun c => c.precioCompra with
    | none => simp [enrichLine, hv, hc]
    | some c =>
      have hing : (enrichLine o m).ingresoLinea = some (o.cantidad.getD 0 * (v * (1 - o.descuento.getD 0))) := by
        simp [enrichLine, hv, hc]
      rcases h with h | h
      · rw [hing] at h
        simp only [Option.some.injEq] at h
        simp [enrichLine, hv, hc, h]
      · rw [hing] at h
        simp at h

/-- A line whose (defaulted) quantity is zero contributes zero to every
total. -/
theorem enrichLine_zero_cantidad (o : PedRow) (m : Option CatRow)
    (h : o.cantidad.getD 0 = 0) :
    (enrichLine o m).ingresoLinea.getD 0 = 0 ∧
    (enrichLine o m).costoLinea.getD 0 = 0 ∧
    (enrichLine o m).utilidadLinea.getD 0 = 0 := by
  cases hv : m.bind fun c => c.precioVenta with
  | none =>
    cases hc : m.bind fun c => c.precioCompra with
    | none => simp [enrichLine, hv, hc]
    | some c => simp [enrichLine, hv, hc, h]
  | some v =>
    cases hc : m.bind fun c => c.precioCompra with
    | none => simp [enrichLine, hv, hc, h]
    | some c => simp [enrichLine, hv, hc, h]

namespace Downloads

/-- Decomposition of a successful run of `main`: the deduplicated
catalog, the enriched lines, the unmatched list, and the summary in
terms of the lines. -/
theorem main_ok_parts {dfCat : List CatRow} {dfPed : List PedRow} {policy : String}
    {lines : List EnrichedRow} {res : Resumen} {missing : List (Option String)}
    (h : main dfCat dfPed policy = .ok (lines, res, missing)) :
    ∃ clean, deduplicate_catalog dfCat policy = .ok clean ∧
      lines = ((dfPed.map fun o =>
          (o, (dropDupByKey rowKey clean []).find? fun c =>
            rowKey c = norm_text o.producto)).map fun p => enrichLine p.1 p.2) ∧
      missing = uniqueFirst (((dfPed.map fun o =>
          (o, (dropDupByKey rowKey clean []).find? fun c =>
            rowKey c = norm_text o.producto)).filter fun p =>
              ((p.2.bind fun c => c.precioVenta).isNone ||
                (p.2.bind fun c => c.precioCompra).isNone)).map fun p => p.1.producto) ∧
      res = { ingresoTotal := (lines.map fun e => e.ingresoLinea.getD 0).sum,
              costoTotal := (lines.map fun e => e.costoLinea.getD 0).sum,
              utilidadTotal := (lines.map fun e => e.utilidadLinea.getD 0).sum,
              margenPonderado :=
                if (lines.map fun e => e.ingresoLinea.getD 0).sum = 0 then 0
                else (lines.map fun e => e.utilidadLinea.getD 0).sum /
                  (lines.map fun e => e.ingresoLinea.getD 0).sum } := by
  rw [main] at h
  cases hclean : deduplicate_catalog dfCat policy with
  | error e => rw [hclean] at h; simp at h
  | ok clean =>
    rw [hclean] at h
    simp only [Except.ok.injEq, Prod.mk.injEq] at h
    obtain ⟨hlines, hres, hmiss⟩ := h
    exact ⟨clean, rfl, hlines.symm, hmiss.symm, by rw [← hres, ← hlines]⟩

end Downloads

namespace CalcPedido

/-- Whenever the deduplication succeeds, `calcular` reaches line 89 and
fails with `KeyError: producto`: the merge of line 86 is written without
a `suffixes` argument, so the overlapping `producto` column was renamed
to `producto_x` / `producto_y`. -/
theorem calcular_keyError {dfCat : List CatRow} {dfPed : List PedRow} {policy : String}
    {clean : List CatRow}
    (hclean : deduplicate_catalog dfCat policy = .ok clean) :
    calcular dfCat dfPed policy = .error (.keyError "producto") := by
  rw [calcular, hclean]
  have hmem : ¬ ("producto" ∈ mergeColumns pedColumns catCleanColumns "producto_norm") := by
    with_unfolding_all decide
  simp only [if_neg hmem]

end CalcPedido

theorem meanOpt_allSome {xs : List (Option ℚ)} (h : ∀ x ∈ xs, x.isSome) (hne : xs ≠ []) :
    meanOpt xs = some ((xs.filterMap id).sum / (xs.length : ℚ)) := by
  have hlen : (xs.filterMap id).length = xs.length := length_filterMap_id_of_isSome h
  have hpos : xs.length ≠ 0 := by
    cases xs with
    | nil => exact absurd rfl hne
    | cons a l => simp
  simp only [meanOpt]
  rw [if_neg (by rw [hlen]; exact hpos), hlen]

/-! ### Claim theorems -/

/-- C1: for every multi-entry catalog group sharing one normalized key
whose entries all have the same `purchase_price` and the same
`sale_price` under null-safe equality, the resolver outputs the
first-encountered entry of the group under that key, for every policy
value including unrecognized ones: on any successful run the output rows
with that key are exactly the group's first entry, and dedup of the
group alone succeeds with exactly that entry under any policy string
(the equality-skip takes precedence over the policy dispatch). -/
theorem equality_skip_precedence
    (rows : List CatRow) (k : String) (r : CatRow) (rest : List CatRow)
    (hg : (rows.filter fun x => CalcPedido.rowKey x = k) = r :: rest)
    (hrest : rest ≠ [])
    (hpc : ∀ x ∈ rest, x.precioCompra = r.precioCompra)
    (hpv : ∀ x ∈ rest, x.precioVenta = r.precioVenta) :
    (∀ policy out, CalcPedido.deduplicate_catalog rows policy = .ok out →
      out.filter (fun x => CalcPedido.rowKey x = k) = [r]) ∧
    (∀ policy, CalcPedido.deduplicate_catalog (r :: rest) policy = .ok [r]) := by
  have hk : ∀ x ∈ r :: rest, CalcPedido.rowKey x = k := by
    intro x hx
    have hxm : x ∈ rows.filter fun x => CalcPedido.rowKey x = k := hg ▸ hx
    simpa using (List.mem_filter.mp hxm).2
  constructor
  · intro policy out hout
    have h2 : 2 ≤ CalcPedido.keyCount rows k := by
      rw [CalcPedido.keyCount_eq_length_filter, hg]
      cases rest with
      | nil => exact absurd rfl hrest
      | cons b l => simp
    obtain ⟨res, hres, hfil⟩ := CalcPedido.dedup_ok_key hout h2
    rw [hg, CalcPedido.resolveGroup_equal_prices policy hpc hpv] at hres
    cases hres
    exact hfil
  · intro policy
    rw [CalcPedido.single_group_dedup hk hrest,
      CalcPedido.resolveGroup_equal_prices policy hpc hpv]

theorem equality_skip_precedence_witness :
    ((([⟨some "X", some 10, some 20⟩, ⟨some " x", some 10, some 20⟩] : List CatRow).filter
        fun x => CalcPedido.rowKey x = "X") =
      ⟨some "X", some 10, some 20⟩ :: [⟨some " x", some 10, some 20⟩]) ∧
    (([⟨some " x", some 10, some 20⟩] : List CatRow) ≠ []) ∧
    ((∀ policy out, CalcPedido.deduplicate_catalog
        [⟨some "X", some 10, some 20⟩, ⟨some " x", some 10, some 20⟩] policy = .ok out →
        out.filter (fun x => CalcPedido.rowKey x = "X") = [⟨some "X", some 10, some 20⟩]) ∧
      (∀ policy, CalcPedido.deduplicate_catalog
        (⟨some "X", some 10, some 20⟩ :: [⟨some " x", some 10, some 20⟩]) policy =
          .ok [⟨some "X", some 10, some 20⟩])) :=
  ⟨by with_unfolding_all decide, by decide,
    equality_skip_precedence _ "X" _ _ (by with_unfolding_all decide) (by decide)
      (by decide) (by decide)⟩

/-- C3: for every input catalog and every policy for which the resolver
returns normally, the normalized keys of the returned rows contain no
duplicates. -/
theorem resolved_keys_nodup (rows : List CatRow) (policy : String) (out : List CatRow)
    (hout : CalcPedido.deduplicate_catalog rows policy = .ok out) :
    (out.map CalcPedido.rowKey).Nodup :=
  CalcPedido.dedup_ok_keys_nodup hout

theorem resolved_keys_nodup_witness :
    (CalcPedido.deduplicate_catalog
        [⟨some "X", some 1, some 2⟩, ⟨some " x", some 3, some 4⟩, ⟨some "Y", some 5, some 6⟩]
        "max_venta" = .ok [⟨some "Y", some 5, some 6⟩, ⟨some " x", some 3, some 4⟩]) ∧
    (([⟨some "Y", some 5, some 6⟩, ⟨some " x", some 3, some 4⟩] : List CatRow).map
      CalcPedido.rowKey).Nodup :=
  ⟨by with_unfolding_all decide,
    resolved_keys_nodup
      [⟨some "X", some 1, some 2⟩, ⟨some " x", some 3, some 4⟩, ⟨some "Y", some 5, some 6⟩]
      "max_venta" [⟨some "Y", some 5, some 6⟩, ⟨some " x", some 3, some 4⟩]
      (by with_unfolding_all decide)⟩

/-- C4 counterexample: an unrecognized policy does not make the resolver
fail on every catalog - on a catalog with no duplicated key (here a
single entry) the policy string is never inspected and resolution
succeeds. -/
theorem unknown_policy_no_disagreement_ok :
    CalcPedido.deduplicate_catalog [⟨some "X", some 1, some 2⟩] "bogus" =
      .ok [⟨some "X", some 1, some 2⟩] := by
  with_unfolding_all decide

/-- C4 amended: an unrecognized policy value makes the resolver fail
with the configuration error (`ValueError`, resolving nothing) whenever
some multi-entry group has genuine price disagreement; the policy is
only inspected inside the per-group loop on a disagreeing group. -/
theorem unknown_policy_raises_on_disagreement
    (rows : List CatRow) (policy k : String) (r : CatRow) (rest : List CatRow)
    (hpol : policy ≠ "first" ∧ policy ≠ "max_venta" ∧ policy ≠ "min_costo" ∧ policy ≠ "avg")
    (hg : (rows.filter fun x => CalcPedido.rowKey x = k) = r :: rest)
    (hrest : rest ≠ [])
    (hdis : ¬((∀ x ∈ rest, x.precioCompra = r.precioCompra) ∧
      (∀ x ∈ rest, x.precioVenta = r.precioVenta))) :
    CalcPedido.deduplicate_catalog rows policy = .error (.unknownPolicy policy) := by
  obtain ⟨h1, h2p, h3, h4⟩ := hpol
  have h2 : 2 ≤ CalcPedido.keyCount rows k := by
    rw [CalcPedido.keyCount_eq_length_filter, hg]
    cases rest with
    | nil => exact absurd rfl hrest
    | cons b l => simp
  have hne : ∃ x ∈ CalcPedido.dupsOf rows, CalcPedido.rowKey x = k := by
    have hr : r ∈ rows.filter fun x => CalcPedido.rowKey x = k := by rw [hg]; simp
    have hrk : CalcPedido.rowKey r = k := by simpa using (List.mem_filter.mp hr).2
    exact ⟨r, CalcPedido.mem_dupsOf.mpr ⟨(List.mem_filter.mp hr).1, hrk ▸ h2⟩, hrk⟩
  have hkd : k ∈ CalcPedido.dupKeys rows := CalcPedido.mem_dupKeys.mpr hne
  have herr : CalcPedido.resolveGroups policy (CalcPedido.dupsOf rows)
      (CalcPedido.dupKeys rows) = .error (.unknownPolicy policy) := by
    apply CalcPedido.resolveGroups_unknown
    · intro k' hk'
      apply CalcPedido.resolveGroup_unknown_cases h1 h2p h3 h4
      obtain ⟨x, hx, hxk⟩ := CalcPedido.mem_dupKeys.mp hk'
      intro hnil
      have hxm : x ∈ (CalcPedido.dupsOf rows).filter
          fun y => CalcPedido.rowKey y = k' := by
        rw [List.mem_filter]
        exact ⟨hx, by simp [hxk]⟩
      rw [hnil] at hxm
      simp at hxm
    · refine ⟨k, hkd, ?_⟩
      rw [CalcPedido.dupsOf_filter_key h2, hg]
      exact CalcPedido.resolveGroup_unknown hdis h1 h2p h3 h4
  rw [CalcPedido.deduplicate_catalog]
  have hemp : (CalcPedido.dupsOf rows).isEmpty = false := by
    obtain ⟨x, hx, _⟩ := hne
    cases hd : CalcPedido.dupsOf rows with
    | nil => rw [hd] at hx; simp at hx
    | cons a l => simp [hd]
  rw [hemp]
  simp only [Bool.false_eq_true, if_false]
  rw [herr]

theorem unknown_policy_raises_on_disagreement_witness :
    (("bogus" : String) ≠ "first" ∧ ("bogus" : String) ≠ "max_venta" ∧
      ("bogus" : String) ≠ "min_costo" ∧ ("bogus" : String) ≠ "avg") ∧
    ((([⟨some "X", some 1, some 2⟩, ⟨some "X", some 1, some 3⟩] : List CatRow).filter
        fun x => CalcPedido.rowKey x = "X") =
      ⟨some "X", some 1, some 2⟩ :: [⟨some "X", some 1, some 3⟩]) ∧
    (¬((∀ x ∈ ([⟨some "X", some 1, some 3⟩] : List CatRow),
          x.precioCompra = (⟨some "X", some 1, some 2⟩ : CatRow).precioCompra) ∧
        (∀ x ∈ ([⟨some "X", some 1, some 3⟩] : List CatRow),
          x.precioVenta = (⟨some "X", some 1, some 2⟩ : CatRow).precioVenta))) ∧
    CalcPedido.deduplicate_catalog
      [⟨some "X", some 1, some 2⟩, ⟨some "X", some 1, some 3⟩] "bogus" =
      .error (.unknownPolicy "bogus") :=
  ⟨by decide, by with_unfolding_all decide, by decide,
    unknown_policy_raises_on_disagreement
      [⟨some "X", some 1, some 2⟩, ⟨some "X", some 1, some 3⟩] "bogus" "X"
      ⟨some "X", some 1, some 2⟩ [⟨some "X", some 1, some 3⟩]
      (by decide) (by with_unfolding_all decide) (by decide) (by decide)⟩

/-- C2: for a multi-entry group with genuine price disagreement and
non-missing numeric prices, `max_venta` keeps the first entry attaining
the maximal sale price, `min_costo` keeps the first entry attaining the
minimal purchase price, and `avg` synthesizes an entry with the first
entry's product name and the arithmetic means of the group's prices. -/
theorem policy_disagreement_resolution
    (rows : List CatRow) (k : String) (r : CatRow) (rest : List CatRow)
    (hg : (rows.filter fun x => CalcPedido.rowKey x = k) = r :: rest)
    (hrest : rest ≠ [])
    (hsome : ∀ x ∈ r :: rest, x.precioCompra.isSome ∧ x.precioVenta.isSome)
    (hdis : ¬((∀ x ∈ rest, x.precioCompra = r.precioCompra) ∧
      (∀ x ∈ rest, x.precioVenta = r.precioVenta))) :
    (∀ out, CalcPedido.deduplicate_catalog rows "max_venta" = .ok out →
      ∃ M s, (∀ x ∈ r :: rest, ∀ w, x.precioVenta = some w → w ≤ M) ∧
        (r :: rest).find? (fun x => x.precioVenta = some M) = some s ∧
        out.filter (fun x => CalcPedido.rowKey x = k) = [s]) ∧
    (∀ out, CalcPedido.deduplicate_catalog rows "min_costo" = .ok out →
      ∃ M s, (∀ x ∈ r :: rest, ∀ w, x.precioCompra = some w → M ≤ w) ∧
        (r :: rest).find? (fun x => x.precioCompra = some M) = some s ∧
        out.filter (fun x => CalcPedido.rowKey x = k) = [s]) ∧
    (∀ out, CalcPedido.deduplicate_catalog rows "avg" = .ok out →
      out.filter (fun x => CalcPedido.rowKey x = k) =
        [{ producto := r.producto,
           precioCompra := some ((((r :: rest).map fun x => x.precioCompra).filterMap id).sum /
             ((r :: rest).length : ℚ)),
           precioVenta := some ((((r :: rest).map fun x => x.precioVenta).filterMap id).sum /
             ((r :: rest).length : ℚ)) }]) := by
  have h2 : 2 ≤ CalcPedido.keyCount rows k := by
    rw [CalcPedido.keyCount_eq_length_filter, hg]
    cases rest with
    | nil => exact absurd rfl hrest
    | cons b l => simp
  refine ⟨?_, ?_, ?_⟩
  · intro out hout
    obtain ⟨res, hres, hfil⟩ := CalcPedido.dedup_ok_key hout h2
    rw [hg, CalcPedido.resolveGroup_max_venta hdis] at hres
    cases hidx : idxmaxRow (fun x => x.precioVenta) (r :: rest) with
    | none =>
      have hnone := idxmaxRow_eq_none hidx r (by simp)
      have hs := (hsome r (by simp)).2
      rw [hnone] at hs
      simp at hs
    | some p =>
      obtain ⟨s, m⟩ := p
      rw [hidx] at hres
      simp only [Except.ok.injEq] at hres
      subst hres
      obtain ⟨hbound, hfind⟩ := idxmaxRow_spec hidx
      exact ⟨m, s, hbound, hfind, hfil⟩
  · intro out hout
    obtain ⟨res, hres, hfil⟩ := CalcPedido.dedup_ok_key hout h2
    rw [hg, CalcPedido.resolveGroup_min_costo hdis] at hres
    cases hidx : idxminRow (fun x => x.precioCompra) (r :: rest) with
    | none =>
      have hnone := idxminRow_eq_none hidx r (by simp)
      have hs := (hsome r (by simp)).1
      rw [hnone] at hs
      simp at hs
    | some p =>
      obtain ⟨s, m⟩ := p
      rw [hidx] at hres
      simp only [Except.ok.injEq] at hres
      subst hres
      obtain ⟨hbound, hfind⟩ := idxminRow_spec hidx
      exact ⟨m, s, hbound, hfind, hfil⟩
  · intro out hout
    obtain ⟨res, hres, hfil⟩ := CalcPedido.dedup_ok_key hout h2
    rw [hg, CalcPedido.resolveGroup_avg hdis] at hres
    have hPC : ∀ x ∈ (r :: rest).map (fun y => y.precioCompra), x.isSome := by
      intro x hx
      obtain ⟨y, hy, rfl⟩ := List.mem_map.mp hx
      exact (hsome y hy).1
    have hPV : ∀ x ∈ (r :: rest).map (fun y => y.precioVenta), x.isSome := by
      intro x hx
      obtain ⟨y, hy, rfl⟩ := List.mem_map.mp hx
      exact (hsome y hy).2
    rw [meanOpt_allSome hPC (by simp), meanOpt_allSome hPV (by simp)] at hres
    simp only [List.length_map] at hres
    simp only [Except.ok.injEq] at hres
    subst hres
    exact hfil

theorem policy_disagreement_resolution_witness :
    ((([⟨some "X", some 5, some 10⟩, ⟨some "X", some 7, some 15⟩] : List CatRow).filter
        fun x => CalcPedido.rowKey x = "X") =
      ⟨some "X", some 5, some 10⟩ :: [⟨some "X", some 7, some 15⟩]) ∧
    ((∀ out, CalcPedido.deduplicate_catalog
        [⟨some "X", some 5, some 10⟩, ⟨some "X", some 7, some 15⟩] "max_venta" = .ok out →
      ∃ M s, (∀ x ∈ (⟨some "X", some 5, some 10⟩ : CatRow) :: [⟨some "X", some 7, some 15⟩],
          ∀ w, x.precioVenta = some w → w ≤ M) ∧
        ((⟨some "X", some 5, some 10⟩ : CatRow) :: [⟨some "X", some 7, some 15⟩]).find?
          (fun x => x.precioVenta = some M) = some s ∧
        out.filter (fun x => CalcPedido.rowKey x = "X") = [s]) ∧
    (∀ out, CalcPedido.deduplicate_catalog
        [⟨some "X", some 5, some 10⟩, ⟨some "X", some 7, some 15⟩] "min_costo" = .ok out →
      ∃ M s, (∀ x ∈ (⟨some "X", some 5, some 10⟩ : CatRow) :: [⟨some "X", some 7, some 15⟩],
          ∀ w, x.precioCompra = some w → M ≤ w) ∧
        ((⟨some "X", some 5, some 10⟩ : CatRow) :: [⟨some "X", some 7, some 15⟩]).find?
          (fun x => x.precioCompra = some M) = some s ∧
        out.filter (fun x => CalcPedido.rowKey x = "X") = [s]) ∧
    (∀ out, CalcPedido.deduplicate_catalog
        [⟨some "X", some 5, some 10⟩, ⟨some "X", some 7, some 15⟩] "avg" = .ok out →
      out.filter (fun x => CalcPedido.rowKey x = "X") =
        [{ producto := some "X",
           precioCompra := some (((((⟨some "X", some 5, some 10⟩ : CatRow) ::
             [⟨some "X", some 7, some 15⟩]).map fun x => x.precioCompra).filterMap id).sum /
             ((((⟨some "X", some 5, some 10⟩ : CatRow) ::
               [⟨some "X", some 7, some 15⟩]).length : ℕ) : ℚ)),
           precioVenta := some (((((⟨some "X", some 5, some 10⟩ : CatRow) ::
             [⟨some "X", some 7, some 15⟩]).map fun x => x.precioVenta).filterMap id).sum /
             ((((⟨some "X", some 5, some 10⟩ : CatRow) ::
               [⟨some "X", some 7, some 15⟩]).length : ℕ) : ℚ)) }])) :=
  ⟨by with_unfolding_all decide,
    policy_disagreement_resolution
      [⟨some "X", some 5, some 10⟩, ⟨some "X", some 7, some 15⟩] "X"
      ⟨some "X", some 5, some 10⟩ [⟨some "X", some 7, some 15⟩]
      (by with_unfolding_all decide) (by decide) (by decide) (by decide)⟩

/-- C8 counterexample: a disagreeing group containing a missing price
does not make `max_venta` or `avg` raise a numeric conversion error:
pandas `idxmax` and `mean` silently skip the missing value (`skipna`),
so resolution succeeds - without coercing the missing value to zero
(otherwise `avg` would give sale price 5, not 10). -/
theorem null_price_policy_no_error :
    CalcPedido.deduplicate_catalog
      [⟨some "X", some 1, some 10⟩, ⟨some "X", some 2, none⟩] "max_venta" =
      .ok [⟨some "X", some 1, some 10⟩] ∧
    CalcPedido.deduplicate_catalog
      [⟨some "X", some 1, some 10⟩, ⟨some "X", some 2, none⟩] "avg" =
      .ok [⟨some "X", some (3/2), some 10⟩] := by
  constructor <;> with_unfolding_all decide

/-- C8 amended: in a disagreeing multi-entry group containing missing
prices, `max_venta` and `min_costo` select among the non-missing values
only (first row attaining the extremum of the non-missing values,
missing values skipped, never defaulted to zero), `avg` averages the
non-missing values only (the divisor is the number of non-missing
values, not the group size), and the pandas argmax error arises only
when every value of the examined column is missing. -/
theorem policy_skips_null_prices
    (rows : List CatRow) (k : String) (r : CatRow) (rest : List CatRow)
    (hg : (rows.filter fun x => CalcPedido.rowKey x = k) = r :: rest)
    (hrest : rest ≠ [])
    (hdis : ¬((∀ x ∈ rest, x.precioCompra = r.precioCompra) ∧
      (∀ x ∈ rest, x.precioVenta = r.precioVenta))) :
    ((∃ x ∈ r :: rest, x.precioVenta.isSome) →
      ∀ out, CalcPedido.deduplicate_catalog rows "max_venta" = .ok out →
      ∃ M s, (∀ x ∈ r :: rest, ∀ w, x.precioVenta = some w → w ≤ M) ∧
        (r :: rest).find? (fun x => x.precioVenta = some M) = some s ∧
        out.filter (fun x => CalcPedido.rowKey x = k) = [s]) ∧
    ((∃ x ∈ r :: rest, x.precioCompra.isSome) →
      ∀ out, CalcPedido.deduplicate_catalog rows "min_costo" = .ok out →
      ∃ M s, (∀ x ∈ r :: rest, ∀ w, x.precioCompra = some w → M ≤ w) ∧
        (r :: rest).find? (fun x => x.precioCompra = some M) = some s ∧
        out.filter (fun x => CalcPedido.rowKey x = k) = [s]) ∧
    (∀ out, CalcPedido.deduplicate_catalog rows "avg" = .ok out →
      out.filter (fun x => CalcPedido.rowKey x = k) =
        [{ producto := r.producto,
           precioCompra :=
             if (((r :: rest).map fun x => x.precioCompra).filterMap id).length = 0 then none
             else some ((((r :: rest).map fun x => x.precioCompra).filterMap id).sum /
               (((((r :: rest).map fun x => x.precioCompra).filterMap id).length : ℕ) : ℚ)),
           precioVenta :=
             if (((r :: rest).map fun x => x.precioVenta).filterMap id).length = 0 then none
             else some ((((r :: rest).map fun x => x.precioVenta).filterMap id).sum /
               (((((r :: rest).map fun x => x.precioVenta).filterMap id).length : ℕ) : ℚ)) }]) ∧
    ((∀ x ∈ r :: rest, x.precioVenta = none) →
      CalcPedido.deduplicate_catalog (r :: rest) "max_venta" = .error .allNullArgmax) := by
  have h2 : 2 ≤ CalcPedido.keyCount rows k := by
    rw [CalcPedido.keyCount_eq_length_filter, hg]
    cases rest with
    | nil => exact absurd rfl hrest
    | cons b l => simp
  have hk : ∀ x ∈ r :: rest, CalcPedido.rowKey x = k := by
    intro x hx
    have hxm : x ∈ rows.filter fun x => CalcPedido.rowKey x = k := hg ▸ hx
    simpa using (List.mem_filter.mp hxm).2
  refine ⟨?_, ?_, ?_, ?_⟩
  · intro hv out hout
    obtain ⟨res, hres, hfil⟩ := CalcPedido.dedup_ok_key hout h2
    rw [hg, CalcPedido.resolveGroup_max_venta hdis] at hres
    cases hidx : idxmaxRow (fun x => x.precioVenta) (r :: rest) with
    | none =>
      obtain ⟨x, hx, hxs⟩ := hv
      have hnone := idxmaxRow_eq_none hidx x hx
      rw [hnone] at hxs
      simp at hxs
    | some p =>
      obtain ⟨s, m⟩ := p
      rw [hidx] at hres
      simp only [Except.ok.injEq] at hres
      subst hres
      obtain ⟨hbound, hfind⟩ := idxmaxRow_spec hidx
      exact ⟨m, s, hbound, hfind, hfil⟩
  · intro hv out hout
    obtain ⟨res, hres, hfil⟩ := CalcPedido.dedup_ok_key hout h2
    rw [hg, CalcPedido.resolveGroup_min_costo hdis] at hres
    cases hidx : idxminRow (fun x => x.precioCompra) (r :: rest) with
    | none =>
      obtain ⟨x, hx, hxs⟩ := hv
      have hnone := idxminRow_eq_none hidx x hx
      rw [hnone] at hxs
      simp at hxs
    | some p =>
      obtain ⟨s, m⟩ := p
      rw [hidx] at hres
      simp only [Except.ok.injEq] at hres
      subst hres
      obtain ⟨hbound, hfind⟩ := idxminRow_spec hidx
      exact ⟨m, s, hbound, hfind, hfil⟩
  · intro out hout
    obtain ⟨res, hres, hfil⟩ := CalcPedido.dedup_ok_key hout h2
    rw [hg, CalcPedido.resolveGroup_avg hdis] at hres
    simp only [Except.ok.injEq] at hres
    subst hres
    exact hfil
  · intro hall
    rw [CalcPedido.single_group_dedup hk hrest, CalcPedido.resolveGroup_max_venta hdis]
    cases hidx : idxmaxRow (fun x => x.precioVenta) (r :: rest) with
    | none => rfl
    | some p =>
      obtain ⟨s, m⟩ := p
      have hfind := (idxmaxRow_spec hidx).2
      have hsm : s.precioVenta = some m := by
        have := List.find?_some hfind
        simpa using this
      have hsn : s.precioVenta = none := hall s (List.mem_of_find?_eq_some hfind)
      rw [hsn] at hsm
      simp at hsm

theorem policy_skips_null_prices_witness :
    ((([⟨some "X", some 1, some 10⟩, ⟨some "X", some 2, none⟩] : List CatRow).filter
        fun x => CalcPedido.rowKey x = "X") =
      ⟨some "X", some 1, some 10⟩ :: [⟨some "X", some 2, none⟩]) ∧
    (((∃ x ∈ (⟨some "X", some 1, some 10⟩ : CatRow) :: [⟨some "X", some 2, none⟩],
        x.precioVenta.isSome) →
      ∀ out, CalcPedido.deduplicate_catalog
        [⟨some "X", some 1, some 10⟩, ⟨some "X", some 2, none⟩] "max_venta" = .ok out →
      ∃ M s, (∀ x ∈ (⟨some "X", some 1, some 10⟩ : CatRow) :: [⟨some "X", some 2, none⟩],
          ∀ w, x.precioVenta = some w → w ≤ M) ∧
        ((⟨some "X", some 1, some 10⟩ : CatRow) :: [⟨some "X", some 2, none⟩]).find?
          (fun x => x.precioVenta = some M) = some s ∧
        out.filter (fun x => CalcPedido.rowKey x = "X") = [s]) ∧
    ((∃ x ∈ (⟨some "X", some 1, some 10⟩ : CatRow) :: [⟨some "X", some 2, none⟩],
        x.precioCompra.isSome) →
      ∀ out, CalcPedido.deduplicate_catalog
        [⟨some "X", some 1, some 10⟩, ⟨some "X", some 2, none⟩] "min_costo" = .ok out →
      ∃ M s, (∀ x ∈ (⟨some "X", some 1, some 10⟩ : CatRow) :: [⟨some "X", some 2, none⟩],
          ∀ w, x.precioCompra = some w → M ≤ w) ∧
        ((⟨some "X", some 1, some 10⟩ : CatRow) :: [⟨some "X", some 2, none⟩]).find?
          (fun x => x.precioCompra = some M) = some s ∧
        out.filter (fun x => CalcPedido.rowKey x = "X") = [s]) ∧
    (∀ out, CalcPedido.deduplicate_catalog
        [⟨some "X", some 1, some 10⟩, ⟨some "X", some 2, none⟩] "avg" = .ok out →
      out.filter (fun x => CalcPedido.rowKey x = "X") =
        [{ producto := some "X",
           precioCompra :=
             if ((((⟨some "X", some 1, some 10⟩ : CatRow) :: [⟨some "X", some 2, none⟩]).map
                 fun x => x.precioCompra).filterMap id).length = 0 then none
             else some (((((⟨some "X", some 1, some 10⟩ : CatRow) ::
                 [⟨some "X", some 2, none⟩]).map fun x => x.precioCompra).filterMap id).sum /
               ((((((⟨some "X", some 1, some 10⟩ : CatRow) :: [⟨some "X", some 2, none⟩]).map
                 fun x => x.precioCompra).filterMap id).length : ℕ) : ℚ)),
           precioVenta :=
             if ((((⟨some "X", some 1, some 10⟩ : CatRow) :: [⟨some "X", some 2, none⟩]).map
                 fun x => x.precioVenta).filterMap id).length = 0 then none
             else some (((((⟨some "X", some 1, some 10⟩ : CatRow) ::
                 [⟨some "X", some 2, none⟩]).map fun x => x.precioVenta).filterMap id).sum /
               ((((((⟨some "X", some 1, some 10⟩ : CatRow) :: [⟨some "X", some 2, none⟩]).map
                 fun x => x.precioVenta).filterMap id).length : ℕ) : ℚ)) }]) ∧
    ((∀ x ∈ (⟨some "X", some 1, some 10⟩ : CatRow) :: [⟨some "X", some 2, none⟩],
        x.precioVenta = none) →
      CalcPedido.deduplicate_catalog
        (⟨some "X", some 1, some 10⟩ :: [⟨some "X", some 2, none⟩]) "max_venta" =
        .error .allNullArgmax)) :=
  ⟨by with_unfolding_all decide,
    policy_skips_null_prices
      [⟨some "X", some 1, some 10⟩, ⟨some "X", some 2, none⟩] "X"
      ⟨some "X", some 1, some 10⟩ [⟨some "X", some 2, none⟩]
      (by with_unfolding_all decide) (by decide) (by decide)⟩

/-- C5: `calcular` of `src/calc_pedido.py` cannot enrich any order line:
its merge (line 86) lacks a `suffixes` argument, so the overlapping
`producto` column is renamed to `producto_x`/`producto_y`, and line 89
(`df[...]["producto"]`) raises `KeyError` for every input that passes
deduplication - here an order whose product is absent from the catalog,
which the claim says proceeds with null prices and a reported unmatched
name. -/
theorem calcular_raises_keyerror_producto :
    CalcPedido.calcular [⟨some "X", some 5, some 10⟩] [⟨some "Y", some 1, some 0⟩] "first" =
      .error (.keyError "producto") :=
  @CalcPedido.calcular_keyError [⟨some "X", some 5, some 10⟩] [⟨some "Y", some 1, some 0⟩]
    "first" [⟨some "X", some 5, some 10⟩] (by with_unfolding_all decide)

theorem resolveGroup_same (policy : String) (g : List CatRow) :
    CalcPedido.resolveGroup policy g = Downloads.resolveGroup policy g := by
  cases g with
  | nil => rfl
  | cons r rest => rfl

theorem resolveGroups_same (policy : String) (d : List CatRow) :
    ∀ ks : List String,
      CalcPedido.resolveGroups policy d ks = Downloads.resolveGroups policy d ks := by
  intro ks
  induction ks with
  | nil => rfl
  | cons k ks ih =>
    have h1 : CalcPedido.resolveGroup policy (d.filter fun r => CalcPedido.rowKey r = k) =
        Downloads.resolveGroup policy (d.filter fun r => Downloads.rowKey r = k) :=
      resolveGroup_same policy _
    rw [CalcPedido.resolveGroups, Downloads.resolveGroups, ← h1, ← ih]

/-- C9: the two files implement the same core logic: their `norm_text`
functions are extensionally equal, and their `deduplicate_catalog`
functions return the same resolved catalog or raised error on every
input table and policy value. -/
theorem two_files_same_core :
    (∀ s, CalcPedido.norm_text s = Downloads.norm_text s) ∧
    (∀ rows policy, CalcPedido.deduplicate_catalog rows policy =
      Downloads.deduplicate_catalog rows policy) := by
  refine ⟨fun _ => rfl, fun rows policy => ?_⟩
  have h1 : Downloads.dupsOf rows = CalcPedido.dupsOf rows := rfl
  have h2 : Downloads.uniquesOf rows = CalcPedido.uniquesOf rows := rfl
  have h3 : Downloads.dupKeys rows = CalcPedido.dupKeys rows := rfl
  rw [CalcPedido.deduplicate_catalog, Downloads.deduplicate_catalog, h1, h2, h3,
    ← resolveGroups_same]

/-- C6: per order line the enrichment defaults a missing discount and
quantity to 0, computes `applied = sale * (1 - discount)` (missing when
the sale price is missing), `revenue = quantity * applied`,
`cost = quantity * purchase`, `profit = revenue - cost` (missing when
either operand is missing); the spec's aggregate scenario (one line,
quantity 2, discount 0.1, matched to purchase 5 / sale 10) yields
applied 9, revenue 18, cost 10, profit 8, margin 4/9 and summary
(18, 10, 8, 4/9).  Settled on the executable enrichment of
`src/downloads/calc_pedido.py`; the identical formula lines of
`src/calc_pedido.py` are unreachable (see C5). -/
theorem enrich_formulas_and_example :
    (∀ (dfCat : List CatRow) (dfPed : List PedRow) (policy : String)
        (lines : List EnrichedRow) (res : Resumen) (missing : List (Option String)),
      Downloads.main dfCat dfPed policy = .ok (lines, res, missing) →
      ∀ (i : Nat) (o : PedRow), dfPed[i]? = some o →
      ∃ line, lines[i]? = some line ∧
        line.descuento = o.descuento.getD 0 ∧
        line.cantidad = o.cantidad.getD 0 ∧
        line.precioVentaAplicado = line.precioVenta.map (fun v => v * (1 - line.descuento)) ∧
        line.ingresoLinea = line.precioVentaAplicado.map (fun a => line.cantidad * a) ∧
        line.costoLinea = line.precioCompra.map (fun c => line.cantidad * c) ∧
        line.utilidadLinea = (match line.ingresoLinea, line.costoLinea with
          | some iv, some cv => some (iv - cv)
          | _, _ => none)) ∧
    Downloads.main [⟨some "X", some 5, some 10⟩] [⟨some "X", some 2, some (1/10)⟩] "first" =
      .ok ([⟨some "X", 2, 1/10, some 10, some 9, some 5, some 18, some 10, some 8,
          some (4/9)⟩],
        ⟨18, 10, 8, 4/9⟩, []) := by
  constructor
  · intro dfCat dfPed policy lines res missing hrun i o hio
    obtain ⟨clean, hclean, hlines, hmiss, hres⟩ := Downloads.main_ok_parts hrun
    subst hlines
    refine ⟨enrichLine o ((dropDupByKey Downloads.rowKey clean []).find? fun c =>
      Downloads.rowKey c = Downloads.norm_text o.producto), ?_, ?_⟩
    · rw [List.getElem?_map, List.getElem?_map, hio]
      rfl
    · obtain ⟨_, h2, h3, _, _, h6, h7, h8, h9⟩ := enrichLine_fields o
        ((dropDupByKey Downloads.rowKey clean []).find? fun c =>
          Downloads.rowKey c = Downloads.norm_text o.producto)
      exact ⟨h3, h2, h6, h7, h8, h9⟩
  · with_unfolding_all decide

theorem enrich_formulas_and_example_witness :
    (Downloads.main [⟨some "X", some 5, some 10⟩] [⟨some "X", some 2, some (1/10)⟩] "first" =
      .ok ([⟨some "X", 2, 1/10, some 10, some 9, some 5, some 18, some 10, some 8,
          some (4/9)⟩],
        ⟨18, 10, 8, 4/9⟩, [])) ∧
    (([⟨some "X", some 2, some (1/10)⟩] : List PedRow)[0]? =
      some ⟨some "X", some 2, some (1/10)⟩) ∧
    (∃ line, ([⟨some "X", 2, 1/10, some 10, some 9, some 5, some 18, some 10, some 8,
          some (4/9)⟩] : List EnrichedRow)[0]? = some line ∧
      line.descuento = (some (1/10) : Option ℚ).getD 0 ∧
      line.cantidad = (some (2 : ℚ) : Option ℚ).getD 0 ∧
      line.precioVentaAplicado = line.precioVenta.map (fun v => v * (1 - line.descuento)) ∧
      line.ingresoLinea = line.precioVentaAplicado.map (fun a => line.cantidad * a) ∧
      line.costoLinea = line.precioCompra.map (fun c => line.cantidad * c) ∧
      line.utilidadLinea = (match line.ingresoLinea, line.costoLinea with
        | some iv, some cv => some (iv - cv)
        | _, _ => none)) :=
  ⟨by with_unfolding_all decide, rfl,
    enrich_formulas_and_example.1 [⟨some "X", some 5, some 10⟩]
      [⟨some "X", some 2, some (1/10)⟩] "first"
      [⟨some "X", 2, 1/10, some 10, some 9, some 5, some 18, some 10, some 8, some (4/9)⟩]
      ⟨18, 10, 8, 4/9⟩ []
      (by with_unfolding_all decide) 0 ⟨some "X", some 2, some (1/10)⟩ rfl⟩

/-- C7 counterexample: a line with revenue 0 need not contribute 0 to
`total_cost` and `total_profit`: quantity 2 with a 100% discount gives
revenue 0 (and an undefined margin) but cost 10, so the single-line
summary has `costoTotal = 10 ≠ 0` and `utilidadTotal = -10 ≠ 0`. -/
theorem zero_revenue_nonzero_cost_contribution :
    Downloads.main [⟨some "X", some 5, some 10⟩] [⟨some "X", some 2, some 1⟩] "first" =
      .ok ([⟨some "X", 2, 1, some 10, some 0, some 5, some 0, some 10, some (-10), none⟩],
        ⟨0, 10, -10, 0⟩, []) ∧ (10 : ℚ) ≠ 0 := by
  constructor
  · with_unfolding_all decide
  · norm_num

/-- C7 amended: a line with zero (or missing) revenue has an undefined
(missing) margin, not 0, and contributes 0 to `total_revenue`; a line
with (defaulted) quantity 0 moreover contributes 0 to all three totals;
missing derived values are skipped as zero contribution in the sums; and
the summary's weighted margin is `total_profit / total_revenue` when
`total_revenue ≠ 0` and `0.0` (not undefined) when `total_revenue = 0` -
the per-line/aggregate asymmetry. -/
theorem zero_quantity_contributions_and_weighted_margin
    (dfCat : List CatRow) (dfPed : List PedRow) (policy : String)
    (lines : List EnrichedRow) (res : Resumen) (missing : List (Option String))
    (hrun : Downloads.main dfCat dfPed policy = .ok (lines, res, missing)) :
    (∀ line ∈ lines, (line.ingresoLinea = some 0 ∨ line.ingresoLinea = none) →
      line.margenLinea = none ∧ line.ingresoLinea.getD 0 = 0) ∧
    (∀ line ∈ lines, line.cantidad = 0 →
      line.ingresoLinea.getD 0 = 0 ∧ line.costoLinea.getD 0 = 0 ∧
        line.utilidadLinea.getD 0 = 0) ∧
    res.ingresoTotal = (lines.map fun l => l.ingresoLinea.getD 0).sum ∧
    res.costoTotal = (lines.map fun l => l.costoLinea.getD 0).sum ∧
    res.utilidadTotal = (lines.map fun l => l.utilidadLinea.getD 0).sum ∧
    res.margenPonderado =
      (if res.ingresoTotal = 0 then 0 else res.utilidadTotal / res.ingresoTotal) := by
  obtain ⟨clean, hclean, hlines, hmiss, hres⟩ := Downloads.main_ok_parts hrun
  subst hlines
  subst hres
  refine ⟨?_, ?_, rfl, rfl, rfl, rfl⟩
  · intro line hline hzero
    obtain ⟨p, hp, rfl⟩ := List.mem_map.mp hline
    refine ⟨enrichLine_margen_none p.1 p.2 hzero, ?_⟩
    rcases hzero with h | h <;> simp [h]
  · intro line hline hq
    obtain ⟨p, hp, rfl⟩ := List.mem_map.mp hline
    have hq0 : p.1.cantidad.getD 0 = 0 := by
      have hc := (enrichLine_fields p.1 p.2).2.1
      rw [← hc]
      exact hq
    exact enrichLine_zero_cantidad p.1 p.2 hq0

theorem zero_quantity_contributions_and_weighted_margin_witness :
    (Downloads.main [⟨some "X", some 5, some 10⟩] [⟨some "X", some 0, none⟩] "first" =
      .ok ([⟨some "X", 0, 0, some 10, some 10, some 5, some 0, some 0, some 0, none⟩],
        ⟨0, 0, 0, 0⟩, [])) ∧
    ((∀ line ∈ ([⟨some "X", 0, 0, some 10, some 10, some 5, some 0, some 0, some 0,
          none⟩] : List EnrichedRow),
        (line.ingresoLinea = some 0 ∨ line.ingresoLinea = none) →
        line.margenLinea = none ∧ line.ingresoLinea.getD 0 = 0) ∧
      (∀ line ∈ ([⟨some "X", 0, 0, some 10, some 10, some 5, some 0, some 0, some 0,
          none⟩] : List EnrichedRow), line.cantidad = 0 →
        line.ingresoLinea.getD 0 = 0 ∧ line.costoLinea.getD 0 = 0 ∧
          line.utilidadLinea.getD 0 = 0) ∧
      (⟨0, 0, 0, 0⟩ : Resumen).ingresoTotal =
        (([⟨some "X", 0, 0, some 10, some 10, some 5, some 0, some 0, some 0,
          none⟩] : List EnrichedRow).map fun l => l.ingresoLinea.getD 0).sum ∧
      (⟨0, 0, 0, 0⟩ : Resumen).costoTotal =
        (([⟨some "X", 0, 0, some 10, some 10, some 5, some 0, some 0, some 0,
          none⟩] : List EnrichedRow).map fun l => l.costoLinea.getD 0).sum ∧
      (⟨0, 0, 0, 0⟩ : Resumen).utilidadTotal =
        (([⟨some "X", 0, 0, some 10, some 10, some 5, some 0, some 0, some 0,
          none⟩] : List EnrichedRow).map fun l => l.utilidadLinea.getD 0).sum ∧
      (⟨0, 0, 0, 0⟩ : Resumen).margenPonderado =
        (if (⟨0, 0, 0, 0⟩ : Resumen).ingresoTotal = 0 then 0
          else (⟨0, 0, 0, 0⟩ : Resumen).utilidadTotal /
            (⟨0, 0, 0, 0⟩ : Resumen).ingresoTotal)) :=
  ⟨by with_unfolding_all decide,
    zero_quantity_contributions_and_weighted_margin
      [⟨some "X", some 5, some 10⟩] [⟨some "X", some 0, none⟩] "first"
      [⟨some "X", 0, 0, some 10, some 10, some 5, some 0, some 0, some 0, none⟩]
      ⟨0, 0, 0, 0⟩ [] (by with_unfolding_all decide)⟩

/-- C10 counterexample: in `src/calc_pedido.py` the unmatched list is
never produced at all - the claim's `dropna` behavior is unreachable: on
an order line with a missing product name (absent from the catalog),
`calcular` raises `KeyError: producto` before building the list. -/
theorem unmatched_list_never_produced_src :
    CalcPedido.calcular [⟨some "X", some 1, some 2⟩] [⟨none, some 1, some 0⟩] "first" =
      .error (.keyError "producto") :=
  @CalcPedido.calcular_keyError [⟨some "X", some 1, some 2⟩] [⟨none, some 1, some 0⟩]
    "first" [⟨some "X", some 1, some 2⟩] (by with_unfolding_all decide)

/-- C10 amended: in the executable enrichment
(`src/downloads/calc_pedido.py`) a product name is in the unmatched list
exactly when some order line carries that name (missing names included -
there is no `dropna` in that file) and its left-joined sale or purchase
price is missing - so a product present in the resolved catalog but with
a missing price is also reported. -/
theorem unmatched_classification_null_prices
    (dfCat : List CatRow) (dfPed : List PedRow) (policy : String)
    (lines : List EnrichedRow) (res : Resumen) (missing : List (Option String))
    (clean : List CatRow)
    (hclean : Downloads.deduplicate_catalog dfCat policy = .ok clean)
    (hrun : Downloads.main dfCat dfPed policy = .ok (lines, res, missing)) :
    ∀ p : Option String, p ∈ missing ↔ ∃ o ∈ dfPed, p = o.producto ∧
      ((((dropDupByKey Downloads.rowKey clean []).find? fun c =>
          Downloads.rowKey c = Downloads.norm_text o.producto).bind
            fun c => c.precioVenta) = none ∨
        (((dropDupByKey Downloads.rowKey clean []).find? fun c =>
          Downloads.rowKey c = Downloads.norm_text o.producto).bind
            fun c => c.precioCompra) = none) := by
  obtain ⟨clean', hclean', hlines, hmiss, hres⟩ := Downloads.main_ok_parts hrun
  have hcc : clean' = clean := by
    rw [hclean] at hclean'
    exact (Except.ok.inj hclean').symm
  rw [hcc] at hmiss
  subst hmiss
  intro p
  rw [mem_uniqueFirst]
  constructor
  · intro hp
    obtain ⟨pr, hpr, hprod⟩ := List.mem_map.mp hp
    obtain ⟨hprm, hbad⟩ := List.mem_filter.mp hpr
    obtain ⟨o, ho, rfl⟩ := List.mem_map.mp hprm
    refine ⟨o, ho, hprod.symm, ?_⟩
    simpa [Option.isNone_iff_eq_none] using hbad
  · rintro ⟨o, ho, rfl, hcond⟩
    apply List.mem_map.mpr
    refine ⟨(o, (dropDupByKey Downloads.rowKey clean []).find? fun c =>
      Downloads.rowKey c = Downloads.norm_text o.producto), ?_, rfl⟩
    apply List.mem_filter.mpr
    refine ⟨List.mem_map.mpr ⟨o, ho, rfl⟩, ?_⟩
    simpa [Option.isNone_iff_eq_none] using hcond

theorem unmatched_classification_null_prices_witness :
    (Downloads.deduplicate_catalog [⟨some "X", none, some 5⟩] "first" =
      .ok [⟨some "X", none, some 5⟩]) ∧
    (Downloads.main [⟨some "X", none, some 5⟩] [⟨some "X", some 1, some 0⟩] "first" =
      .ok ([⟨some "X", 1, 0, some 5, some 5, none, some 5, none, none, none⟩],
        ⟨5, 0, 0, 0⟩, [some "X"])) ∧
    (∀ p : Option String, p ∈ ([some "X"] : List (Option String)) ↔
      ∃ o ∈ ([⟨some "X", some 1, some 0⟩] : List PedRow), p = o.producto ∧
        ((((dropDupByKey Downloads.rowKey [⟨some "X", none, some 5⟩] []).find? fun c =>
            Downloads.rowKey c = Downloads.norm_text o.producto).bind
              fun c => c.precioVenta) = none ∨
          (((dropDupByKey Downloads.rowKey [⟨some "X", none, some 5⟩] []).find? fun c =>
            Downloads.rowKey c = Downloads.norm_text o.producto).bind
              fun c => c.precioCompra) = none)) :=
  ⟨by with_unfolding_all decide, by with_unfolding_all decide,
    unmatched_classification_null_prices [⟨some "X", none, some 5⟩]
      [⟨some "X", some 1, some 0⟩] "first"
      [⟨some "X", 1, 0, some 5, some 5, none, some 5, none, none, none⟩]
      ⟨5, 0, 0, 0⟩ [some "X"] [⟨some "X", none, some 5⟩]
      (by with_unfolding_all decide) (by with_unfolding_all decide)⟩
